import Mathlib

/-!
# Verification of the baseball-apollo storage layer

A shallow embedding of `src/database.ts` and `src/datasource.ts`:
the SQLite-backed storage gateway (player search, profile/stats
aggregation, lineup create/read/update with identifier-or-name
resolution) and the per-request batched loader.

The relational store is modelled as explicit lists of rows; the SQL
constructs used by the source (`LIKE` with its default ASCII
case-insensitive collation, scalar subqueries with `LIMIT 1` over a
table scan, `INSERT OR REPLACE` against the table's UNIQUE
constraints, `ORDER BY` under BINARY collation, `SUM`/`GROUP BY`)
are embedded as total Lean functions on those lists.
-/

/-! ## SQL LIKE matching

SQLite's default `LIKE` is case-insensitive for the ASCII range:
an upper-case ASCII letter in the pattern matches the corresponding
lower-case letter of the text and vice versa.  `%` matches any
(possibly empty) sequence, `_` matches exactly one character.
-/

/-- Fold an ASCII upper-case letter to lower case (SQLite's default
`LIKE` folds exactly the ASCII range). -/
def asciiLower (c : Char) : Char :=
  if 'A' ≤ c ∧ c ≤ 'Z' then Char.ofNat (c.toNat + 32) else c

/-- Character match under SQLite's default `LIKE` collation. -/
def likeChar (p c : Char) : Bool :=
  asciiLower p == asciiLower c

/-- `anySuffix f s` is true when `f` accepts some suffix of `s`
(including `s` itself and the empty suffix). -/
def anySuffix (f : List Char → Bool) : List Char → Bool
  | [] => f []
  | c :: cs => f (c :: cs) || anySuffix f cs

/-- SQLite `LIKE` pattern matching: `sqlLike pat s` is true when the
string `s` matches the pattern `pat`, with `%` matching any sequence,
`_` matching one character, and other characters compared ASCII
case-insensitively. -/
def sqlLike : List Char → List Char → Bool
  | [], s => s.isEmpty
  | p :: ps, s =>
    if p == '%' then anySuffix (sqlLike ps) s
    else
      match s with
      | [] => false
      | d :: ds => (if p == '_' then true else likeChar p d) && sqlLike ps ds

/-- `LIKE` on strings. -/
def likeStr (pat s : String) : Bool :=
  sqlLike pat.data s.data

/-! ## Table rows and database state -/

/-- A row of the `People` table. -/
structure Person where
  playerID : String
  nameFirst : String
  nameLast : String
  birthYear : Int
  birthCountry : String
deriving Repr, DecidableEq

/-- A row of the `Batting` table.  The source columns `_2B` and `_3B`
(doubles and triples) are named `d2B` and `d3B` here. -/
structure BattingRow where
  playerID : String
  AB : Int
  d2B : Int
  d3B : Int
  HR : Int
  H : Int
  SO : Int
deriving Repr, DecidableEq

/-- A row of the `LineupAssignments` table.  `playerId` is nullable:
the `INSERT OR REPLACE` in `updateLineup` stores the value of a scalar
subquery, which is SQL `NULL` when no player matches. -/
structure AssignRow where
  lineupId : Int
  position : String
  playerId : Option String
deriving Repr, DecidableEq

/-- The whole store: the four tables created by `connect`, plus the
`AUTOINCREMENT` counter backing `Lineups.lineupId`. -/
structure DBState where
  people : List Person
  batting : List BattingRow
  lineups : List Int
  assigns : List AssignRow
  nextLineupId : Int
deriving Repr, DecidableEq

/-! ## Result shapes -/

/-- The profile object built by `getProfiles`
(`name` is first and last name joined by one space). -/
structure PlayerProfile where
  name : String
  country : String
  year : Int
deriving Repr, DecidableEq

/-- The stats object built by `getStats`.  The two derived ratios are
modelled in exact rational arithmetic. -/
structure PlayerStats where
  atBats : Int
  hits : Int
  homeRuns : Int
  strikeouts : Int
  battingAverage : ℚ
  slugging : ℚ
deriving Repr, DecidableEq

/-- The lineup shape built by `getLineup`: the identifier plus the nine
fixed positions, each holding a player identifier or absent. -/
structure Lineup where
  lineupId : Int
  pitcher : Option String
  catcher : Option String
  firstBase : Option String
  secondBase : Option String
  thirdBase : Option String
  shortstop : Option String
  leftField : Option String
  centerField : Option String
  rightField : Option String
deriving Repr, DecidableEq

/-- The `KNOWN_POSITIONS` set, in its source insertion order. -/
def knownPositions : List String :=
  ["pitcher", "catcher", "firstBase", "secondBase", "thirdBase",
   "shortstop", "leftField", "centerField", "rightField"]

/-! ## getPlayers -/

/-- Strict lexicographic order on character lists by code point
(SQLite's BINARY collation on UTF-8 text). -/
def lexLt : List Char → List Char → Bool
  | _, [] => false
  | [], _ :: _ => true
  | a :: as, b :: bs =>
    if a.toNat < b.toNat then true
    else if b.toNat < a.toNat then false
    else lexLt as bs

/-- BINARY-collation strict order on strings. -/
def strLt (s t : String) : Bool :=
  lexLt s.data t.data

/-- The `ORDER BY nameFirst,namelast` comparison: SQLite BINARY
collation, i.e. code-point order on first name, then last name. -/
def nameLe (p q : Person) : Bool :=
  strLt p.nameFirst q.nameFirst ||
    (p.nameFirst == q.nameFirst &&
      (strLt p.nameLast q.nameLast || p.nameLast == q.nameLast))

/-- Insert into a sorted list (model of the SQL sort). -/
def insertBy (le : α → α → Bool) (x : α) : List α → List α
  | [] => [x]
  | y :: ys => if le x y then x :: y :: ys else y :: insertBy le x ys

/-- Insertion sort (model of the SQL `ORDER BY`). -/
def sortBy (le : α → α → Bool) (l : List α) : List α :=
  l.foldr (insertBy le) []

/-- The rows selected by `getPlayers`'s `WHERE` clause:
`nameFirst LIKE f% AND namelast LIKE l%`. -/
def matchedPlayers (st : DBState) (firstName lastName : String) : List Person :=
  st.people.filter fun p =>
    likeStr (firstName ++ "%") p.nameFirst && likeStr (lastName ++ "%") p.nameLast

/-- `Database.getPlayers`: select matching people, order by
(first name, last name), return the identifiers. -/
def getPlayers (st : DBState) (firstName lastName : String) : List String :=
  (sortBy nameLe (matchedPlayers st firstName lastName)).map fun p => p.playerID

/-! ## getProfiles and getStats -/

/-- The profile value `getProfiles` builds for one `People` row. -/
def profileOf (p : Person) : PlayerProfile :=
  { name := p.nameFirst ++ " " ++ p.nameLast
    country := p.birthCountry
    year := p.birthYear }

/-! ### The scatter maps of getProfiles/getStats

The source scatters through a plain JS object
(`mapping[i] !== undefined ? mapping[i] : null`).  A plain-object
property lookup consults the prototype chain, so an identifier such as
`"constructor"` or `"toString"` with no stored row does **not** come
back as the absent marker: the inherited `Object.prototype` member is
returned instead.  Likewise, assigning `mapping["__proto__"] = row`
creates no own property — it re-points the object's prototype at the
row object.  These semantics are modelled explicitly below.
-/

/-- A value held by one output slot of `getProfiles`/`getStats`:
JS `null` (the absent marker), a stored row object, a member inherited
from `Object.prototype`, or — when a stored row's identifier is
`"__proto__"`, which re-points the mapping's prototype at that row — a
field of that row reached through the prototype chain. -/
inductive FetchSlot (α : Type) where
  | null : FetchSlot α
  | val (v : α) : FetchSlot α
  | protoMember (k : String) : FetchSlot α
  | fieldVal (v : α) (k : String) : FetchSlot α
deriving Repr, DecidableEq

/-- The property names of `Object.prototype` (Node's default), which a
plain-object lookup reaches through the prototype chain. -/
def protoKeys : List String :=
  ["constructor", "hasOwnProperty", "isPrototypeOf", "propertyIsEnumerable",
   "toLocaleString", "toString", "valueOf", "__defineGetter__",
   "__defineSetter__", "__lookupGetter__", "__lookupSetter__", "__proto__"]

/-- A plain JS object used as a string-keyed map: its own properties
in insertion order, plus its prototype, which an assignment to
`"__proto__"` re-points. -/
structure JSMap (α : Type) where
  own : List (String × α)
  protoOverride : Option α

/-- `mapping[k] = v` on a plain object: assigning to `"__proto__"`
invokes the inherited accessor and re-points the prototype (no own
property); any other key creates or overwrites an own property. -/
def jsSet (m : JSMap α) (k : String) (v : α) : JSMap α :=
  if k == "__proto__" then { m with protoOverride := some v }
  else if m.own.any fun e => e.1 == k then
    { m with own := m.own.map fun e => if e.1 == k then (k, v) else e }
  else { m with own := m.own ++ [(k, v)] }

/-- `mapping[k]` on a plain object, as consumed by the scatter:
`some` when the lookup is not `undefined` — an own property, a field
of an overriding prototype row (`hasField` names the own properties of
a row object), the `"__proto__"` accessor (which returns the current
prototype), or an `Object.prototype` member — and `none` when the
lookup is `undefined`. -/
def jsGet (hasField : String → Bool) (m : JSMap α) (k : String) : Option (FetchSlot α) :=
  match m.own.find? fun e => e.1 == k with
  | some e => some (FetchSlot.val e.2)
  | none =>
    match m.protoOverride with
    | some pv =>
      if hasField k then some (FetchSlot.fieldVal pv k)
      else if k == "__proto__" then some (FetchSlot.val pv)
      else if protoKeys.contains k then some (FetchSlot.protoMember k)
      else none
    | none =>
      if protoKeys.contains k then some (FetchSlot.protoMember k) else none

/-- The scatter step `mapping[i] !== undefined ? mapping[i] : null`. -/
def scatterSlot (hasField : String → Bool) (m : JSMap α) (i : String) : FetchSlot α :=
  match jsGet hasField m i with
  | some s => s
  | none => FetchSlot.null

/-- Own-property names of a profile object. -/
def profileHasField (k : String) : Bool :=
  k == "name" || k == "country" || k == "year"

/-- Own-property names of a stats object. -/
def statsHasField (k : String) : Bool :=
  k == "atBats" || k == "hits" || k == "homeRuns" || k == "strikeouts" ||
    k == "battingAverage" || k == "slugging"

/-- `Database.getProfiles`: one set query keyed by the identifiers
(`WHERE playerId IN (...)`), a loop writing each result row into a
plain-object mapping keyed by `playerID`, then the scatter
`mapping[i] !== undefined ? mapping[i] : null` over the input. -/
def getProfiles (st : DBState) (idents : List String) : List (FetchSlot PlayerProfile) :=
  let resultRows := st.people.filter fun p => idents.contains p.playerID
  let mapping := resultRows.foldl (fun m p => jsSet m p.playerID (profileOf p)) ⟨[], none⟩
  idents.map (scatterSlot profileHasField mapping)

/-- The `SUM`/`GROUP BY` aggregate of `getStats` for one identifier:
`none` when the player has no batting rows (no group is produced),
otherwise column sums with the two derived rational ratios.  Division
is unguarded in the source; here it is rational division (with Lean's
`x / 0 = 0` convention standing in for the source's non-finite float). -/
def statsFor (batting : List BattingRow) (i : String) : Option PlayerStats :=
  let rows := batting.filter fun r => r.playerID == i
  if rows.isEmpty then none
  else
    let ab := (rows.map fun r => r.AB).sum
    let h := (rows.map fun r => r.H).sum
    let d2 := (rows.map fun r => r.d2B).sum
    let d3 := (rows.map fun r => r.d3B).sum
    let hr := (rows.map fun r => r.HR).sum
    let so := (rows.map fun r => r.SO).sum
    let singles := h - d2 - d3 - hr
    some
      { atBats := ab
        hits := h
        homeRuns := hr
        strikeouts := so
        battingAverage := (h : ℚ) / (ab : ℚ)
        slugging := ((singles + 2 * d2 + 3 * d3 + 4 * hr : Int) : ℚ) / (ab : ℚ) }

/-- First-occurrence deduplication (the distinct `GROUP BY` keys, in
first-appearance order). -/
def dedupFirst (l : List String) : List String :=
  l.foldl (fun acc k => if acc.contains k then acc else acc ++ [k]) []

/-- The result rows of `getStats`'s `SUM`/`GROUP BY` query: one
`(playerID, aggregate)` row per distinct identifier among the matched
batting rows. -/
def statsGroups (batting : List BattingRow) (idents : List String) :
    List (String × PlayerStats) :=
  (dedupFirst ((batting.filter fun r => idents.contains r.playerID).map
      fun r => r.playerID)).filterMap
    fun k => (statsFor batting k).map fun s => (k, s)

/-- `Database.getStats`: the grouped aggregate query, the mapping
loop over its result rows, then the same plain-object scatter as
`getProfiles`. -/
def getStats (st : DBState) (idents : List String) : List (FetchSlot PlayerStats) :=
  let mapping := (statsGroups st.batting idents).foldl (fun m e => jsSet m e.1 e.2) ⟨[], none⟩
  idents.map (scatterSlot statsHasField mapping)

/-! ## getLineup -/

/-- The all-absent lineup shape `getLineup` starts from. -/
def emptyLineup (lid : Int) : Lineup :=
  { lineupId := lid
    pitcher := none, catcher := none, firstBase := none
    secondBase := none, thirdBase := none, shortstop := none
    leftField := none, centerField := none, rightField := none }

/-- Read one position field of a lineup shape by its string key. -/
def posOf (l : Lineup) (pos : String) : Option String :=
  if pos == "pitcher" then l.pitcher
  else if pos == "catcher" then l.catcher
  else if pos == "firstBase" then l.firstBase
  else if pos == "secondBase" then l.secondBase
  else if pos == "thirdBase" then l.thirdBase
  else if pos == "shortstop" then l.shortstop
  else if pos == "leftField" then l.leftField
  else if pos == "centerField" then l.centerField
  else if pos == "rightField" then l.rightField
  else none

/-- The body of `getLineup`'s loop over the joined assignment rows,
acting on the position dictionary (the source's mutable `result`
object): known positions with a non-NULL `playerId` are written,
everything else is skipped. -/
def applyAssign (f : String → Option String) (a : AssignRow) : String → Option String :=
  if knownPositions.contains a.position then
    match a.playerId with
    | some p => fun q => if q == a.position then some p else f q
    | none => f
  else f

/-- Read the position dictionary into the nine-field lineup shape. -/
def mkLineup (lid : Int) (f : String → Option String) : Lineup :=
  { lineupId := lid
    pitcher := f "pitcher", catcher := f "catcher", firstBase := f "firstBase"
    secondBase := f "secondBase", thirdBase := f "thirdBase"
    shortstop := f "shortstop", leftField := f "leftField"
    centerField := f "centerField", rightField := f "rightField" }

/-- `Database.getLineup`: inner-join `Lineups` with
`LineupAssignments` on the identifier (so a lineup identifier absent
from `Lineups` joins to no rows), then fill the shape starting from
the all-absent dictionary. -/
def getLineup (st : DBState) (lid : Int) : Lineup :=
  let rows :=
    if st.lineups.contains lid then st.assigns.filter fun a => a.lineupId == lid
    else []
  mkLineup lid (rows.foldl applyAssign fun _ => none)

/-- `Database.createLineup`: insert a fresh `Lineups` row, read the
new identifier back, return `getLineup` on it. -/
def createLineup (st : DBState) : Lineup × DBState :=
  let lid := st.nextLineupId
  let st2 : DBState :=
    { st with lineups := st.lineups ++ [lid], nextLineupId := lid + 1 }
  (getLineup st2 lid, st2)

/-! ## updateLineup -/

/-- The split of a query string on single spaces (JS
`query.split(" ")`: every occurrence of the separator splits, empty
parts are kept, the empty string yields one empty part). -/
def splitSp : List Char → List (List Char)
  | [] => [[]]
  | c :: rest =>
    let r := splitSp rest
    if c == ' ' then [] :: r
    else
      match r with
      | t :: ts => (c :: t) :: ts
      | [] => [[c]]

/-- The name-pattern construction of `updateLineup`: one token gives
`(query + "%", "%")`, two tokens give `(first + "%", second + "%")`,
any other token count leaves both patterns empty. -/
def parseQuery (query : String) : String × String :=
  match splitSp query.data with
  | [_] => (query ++ "%", "%")
  | [f, l] => (String.mk f ++ "%", String.mk l ++ "%")
  | _ => ("", "")

/-- The predicate of the resolution subquery:
`playerId = query OR (namefirst LIKE fpat AND namelast LIKE lpat)`. -/
def resolveMatches (query fpat lpat : String) (p : Person) : Bool :=
  p.playerID == query || (likeStr fpat p.nameFirst && likeStr lpat p.nameLast)

/-- The scalar subquery `SELECT playerId FROM People WHERE ... LIMIT 1`:
no `ORDER BY`, so a full table scan returns the first matching row in
table order; zero rows yield SQL `NULL` (`none`). -/
def resolvePlayer (people : List Person) (query fpat lpat : String) : Option String :=
  (people.find? (resolveMatches query fpat lpat)).map fun p => p.playerID

/-- Does `a` conflict with a fresh row `(lid, pos, pid)` under the
`UNIQUE("lineupId", "playerId")` constraint?  SQL `NULL`s are distinct,
so a NULL on either side never conflicts. -/
def playerConflict (lid : Int) (pid : Option String) (a : AssignRow) : Bool :=
  match pid with
  | none => false
  | some p =>
    a.lineupId == lid &&
      (match a.playerId with
       | none => false
       | some q => p == q)

/-- Does `a` conflict with a fresh row `(lid, pos, pid)` under either
UNIQUE constraint of `LineupAssignments`? -/
def conflictsWith (lid : Int) (pos : String) (pid : Option String) (a : AssignRow) : Bool :=
  (a.lineupId == lid && a.position == pos) || playerConflict lid pid a

/-- `INSERT OR REPLACE INTO LineupAssignments`: delete every row that
conflicts with the new row on a UNIQUE constraint, then insert the new
row.  The row is inserted unconditionally — when the resolution
subquery produced `NULL`, a NULL-player row is written. -/
def upsertAssign (st : DBState) (lid : Int) (pos : String) (pid : Option String) : DBState :=
  { st with
    assigns :=
      (st.assigns.filter fun a => !conflictsWith lid pos pid a) ++
        [{ lineupId := lid, position := pos, playerId := pid }] }

/-- One position's write inside `updateLineup`: build the name
patterns, run the combined identifier-or-name subquery, upsert the
result (possibly NULL). -/
def updateStep (args : String → Option String) (s : DBState) (lid : Int) (pos : String) : DBState :=
  match args pos with
  | none => s
  | some query =>
    let pats := parseQuery query
    upsertAssign s lid pos (resolvePlayer s.people query pats.1 pats.2)

/-- `Database.updateLineup`: for each known position supplied in the
assignment map, resolve and upsert; then re-read the lineup.  The
writes are issued over the serialized connection in the source's
`KNOWN_POSITIONS` iteration order. -/
def updateLineup (st : DBState) (lid : Int) (args : String → Option String) : Lineup × DBState :=
  let st2 := knownPositions.foldl (fun s pos => updateStep args s lid pos) st
  (getLineup st2 lid, st2)

/-- A sparse assignment map supplying a single position. -/
def singleAssign (pos query : String) : String → Option String :=
  fun p => if p == pos then some query else none

/-- The stored assignment row at one `(lineupId, position)` key (unique
under the table's first UNIQUE constraint). -/
def findAssign (st : DBState) (lid : Int) (pos : String) : Option AssignRow :=
  st.assigns.find? fun a => a.lineupId == lid && a.position == pos

/-! ## The batched loader

`src/datasource.ts` wires `getProfiles`/`getStats` into two per-request
`DataLoader` instances.  The `dataloader` package itself is an external
dependency, not part of this repository's sources, so its behaviour is
modelled from the spec (§4.2 Batched Loader): a per-operation memoizing
cache; `load` calls issued in one scheduling tick are coalesced; each
tick with pending (uncached) keys triggers exactly one batch fetch over
the distinct pending keys; the aligned results are cached and
demultiplexed back; the cache is never evicted during the operation.
-/

/-- Modelled from the spec: the per-operation state of one Batched
Loader — a memoizing map from key to the (possibly absent-marker)
value it resolved to.  The `DataLoader` instance holding this cache is
not under `src/`. -/
structure LoaderState (α : Type) where
  cache : List (String × α)
deriving Repr

/-- First-match lookup in a loader cache. -/
def lookupCache (c : List (String × α)) (k : String) : Option α :=
  (c.find? fun e => e.1 == k).map fun e => e.2

/-- Modelled from the spec: the distinct keys of one tick that are not
already cached, in first-request order — the argument the batch fetch
will receive. -/
def pendingKeys (cache : List (String × α)) (keys : List String) : List String :=
  keys.foldl
    (fun acc k =>
      if (lookupCache cache k).isSome || acc.contains k then acc else acc ++ [k])
    []

/-- Modelled from the spec: dispatch one scheduling tick.  All `load`
calls of the tick are coalesced: the batch fetch runs once if any key
is pending (zero times otherwise), its aligned results are cached, and
every call is answered from the cache.  Returns the per-call results,
the new state, and the log of batch-fetch invocations (each entry the
key list passed to the fetch). -/
def dispatchTick (fetch : List String → List α) (st : LoaderState α) (keys : List String) :
    List (String × Option α) × LoaderState α × List (List String) :=
  let pending := pendingKeys st.cache keys
  let st2 : LoaderState α :=
    if pending.isEmpty then st else ⟨st.cache ++ pending.zip (fetch pending)⟩
  (keys.map fun k => (k, lookupCache st2.cache k), st2,
    if pending.isEmpty then [] else [pending])

/-- The observable trace of one logical operation against a loader:
every `load` call paired with its answer, the final cache, and the
argument list of every batch-fetch invocation. -/
structure OpTrace (α : Type) where
  results : List (String × Option α)
  final : LoaderState α
  log : List (List String)

/-- Modelled from the spec: run one operation — a sequence of
scheduling ticks, each carrying the `load` calls issued in it —
against a loader. -/
def runTicks (fetch : List String → List α) : List (List String) → LoaderState α → OpTrace α
  | [], st => ⟨[], st, []⟩
  | keys :: rest, st =>
    let d := dispatchTick fetch st keys
    let tr := runTicks fetch rest d.2.1
    ⟨d.1 ++ tr.results, tr.final, d.2.2 ++ tr.log⟩

/-- The profile loader's batch fetch (`DataSource.batchProfiles`):
the storage gateway's `getProfiles`. -/
def batchProfiles (db : DBState) : List String → List (FetchSlot PlayerProfile) :=
  getProfiles db

/-- The stats loader's batch fetch (`DataSource.batchStats`):
the storage gateway's `getStats`. -/
def batchStats (db : DBState) : List String → List (FetchSlot PlayerStats) :=
  getStats db

/-! ## Reachable store states and invariants -/

/-- Store states reachable from a freshly connected database (empty
`Lineups` and `LineupAssignments`; `People` and `Batting` arbitrary,
as loaded by `connect`'s setup hook) through `createLineup` and
`updateLineup`. -/
inductive Reachable : DBState → Prop
  | init (people : List Person) (batting : List BattingRow) :
      Reachable ⟨people, batting, [], [], 1⟩
  | create {st : DBState} : Reachable st → Reachable (createLineup st).2
  | update {st : DBState} (lid : Int) (args : String → Option String) :
      Reachable st → Reachable (updateLineup st lid args).2

/-- The `UNIQUE("lineupId", "playerId")` invariant: within one lineup,
two assignment rows naming the same (non-NULL) player are the same
row. -/
def PlayerUnique (st : DBState) : Prop :=
  ∀ a ∈ st.assigns, ∀ b ∈ st.assigns, a.lineupId = b.lineupId →
    ∀ p, a.playerId = some p → b.playerId = some p → a = b

/-! ## Spec-side comparison definitions (for the search claim) -/

/-- A pattern fragment free of `LIKE` wildcards. -/
def noWildcard (p : String) : Prop :=
  ∀ c ∈ p.data, c ≠ '%' ∧ c ≠ '_'

/-- Spec-side predicate: `s` starts with `p` under ASCII
case-insensitive comparison (SQLite's default `LIKE` collation). -/
def startsWithCI (p s : String) : Bool :=
  (p.data.map asciiLower).isPrefixOf (s.data.map asciiLower)

/-- Spec-side predicate: `s` starts with `p` under case-sensitive
comparison — the comparison the spec asserts for the player search. -/
def startsWithCS (p s : String) : Bool :=
  p.data.isPrefixOf s.data

/-! ## Concrete fixtures (from `resolvers.test.ts` and for the
counterexamples/witnesses) -/

/-- The `People` fixture of `resolvers.test.ts`. -/
def testPeople : List Person :=
  [⟨"1", "Andy", "Anderson", 2000, "CAN"⟩,
   ⟨"2", "Bob", "Ball", 2001, "CAN"⟩,
   ⟨"3", "Bill", "Baker", 2002, "USA"⟩,
   ⟨"4", "Charlie", "Cho", 2003, "CAN"⟩]

/-- The `Batting` fixture of `resolvers.test.ts`
(columns `playerID, AB, _2B, _3B, HR, H, SO`). -/
def testBatting : List BattingRow :=
  [⟨"1", 10, 20, 2, 2, 3, 4⟩,
   ⟨"1", 90, 21, 3, 8, 7, 6⟩,
   ⟨"2", 50, 22, 3, 6, 7, 8⟩,
   ⟨"3", 10, 23, 4, 2, 3, 4⟩,
   ⟨"3", 10, 24, 2, 2, 3, 4⟩,
   ⟨"3", 10, 23, 3, 2, 3, 4⟩,
   ⟨"4", 50, 22, 2, 6, 7, 8⟩]

/-- A freshly connected store holding the test fixture. -/
def dbTest : DBState :=
  ⟨testPeople, testBatting, [], [], 1⟩

/-- The test store with one created lineup (identifier 1) carrying an
assignment of player 1 at pitcher. -/
def dbPitcher1 : DBState :=
  ⟨testPeople, testBatting, [1], [⟨1, "pitcher", some "1"⟩], 2⟩

/-- A `People` table in which the row matching the query `"Bob"` by
name precedes the row whose identifier is literally `"Bob"`. -/
def peopleShadow : List Person :=
  [⟨"p1", "Bob", "Smith", 1990, "USA"⟩,
   ⟨"Bob", "Zed", "Qux", 1991, "USA"⟩]

/-- A store over `peopleShadow` with one created lineup. -/
def dbShadow : DBState :=
  ⟨peopleShadow, [], [1], [], 2⟩

/-- A freshly connected store holding no data at all. -/
def dbEmpty : DBState :=
  ⟨[], [], [], [], 1⟩

/-- A sparse assignment map supplying two positions. -/
def pairAssign (p1 q1 p2 q2 : String) : String → Option String :=
  fun p => if p == p1 then some q1 else if p == p2 then some q2 else none


/-! ## Basic lemmas about updateLineup -/

theorem updateStep_people (args : String → Option String) (s : DBState) (lid : Int) (pos : String) :
    (updateStep args s lid pos).people = s.people := by
  unfold updateStep
  cases args pos <;> rfl

theorem updateStep_lineups (args : String → Option String) (s : DBState) (lid : Int) (pos : String) :
    (updateStep args s lid pos).lineups = s.lineups := by
  unfold updateStep
  cases args pos <;> rfl

theorem updateFold_people (args : String → Option String) (lid : Int) :
    ∀ (l : List String) (st : DBState),
      (l.foldl (fun s pos => updateStep args s lid pos) st).people = st.people := by
  intro l
  induction l with
  | nil => intro st; rfl
  | cons p ps ih =>
    intro st
    simp only [List.foldl_cons]
    rw [ih, updateStep_people]

theorem updateFold_lineups (args : String → Option String) (lid : Int) :
    ∀ (l : List String) (st : DBState),
      (l.foldl (fun s pos => updateStep args s lid pos) st).lineups = st.lineups := by
  intro l
  induction l with
  | nil => intro st; rfl
  | cons p ps ih =>
    intro st
    simp only [List.foldl_cons]
    rw [ih, updateStep_lineups]

theorem updateLineup_people (st : DBState) (lid : Int) (args : String → Option String) :
    (updateLineup st lid args).2.people = st.people :=
  updateFold_people args lid knownPositions st

theorem updateLineup_lineups (st : DBState) (lid : Int) (args : String → Option String) :
    (updateLineup st lid args).2.lineups = st.lineups :=
  updateFold_lineups args lid knownPositions st

theorem updateLineup_single (st : DBState) (lid : Int) (pos query : String)
    (hpos : pos ∈ knownPositions) :
    (updateLineup st lid (singleAssign pos query)).2 =
      upsertAssign st lid pos
        (resolvePlayer st.people query (parseQuery query).1 (parseQuery query).2) := by
  simp only [knownPositions, List.mem_cons, List.not_mem_nil, or_false] at hpos
  rcases hpos with h | h | h | h | h | h | h | h | h <;> subst h <;> rfl

theorem updateLineup_fst (st : DBState) (lid : Int) (args : String → Option String) :
    (updateLineup st lid args).1 = getLineup (updateLineup st lid args).2 lid := rfl

/-! ## Lemmas about upsertAssign -/

theorem conflictsWith_self (lid : Int) (pos : String) (pid : Option String) :
    conflictsWith lid pos pid { lineupId := lid, position := pos, playerId := pid } = true := by
  simp [conflictsWith]

theorem playerConflict_none (lid : Int) (a : AssignRow) :
    playerConflict lid none a = false := rfl

theorem upsertAssign_idem (st : DBState) (lid : Int) (pos : String) (pid : Option String) :
    upsertAssign (upsertAssign st lid pos pid) lid pos pid = upsertAssign st lid pos pid := by
  unfold upsertAssign
  simp only [List.filter_append, List.filter_filter]
  congr 1
  rw [List.filter_congr (q := fun a => !conflictsWith lid pos pid a)]
  · have h1 : List.filter (fun a => !conflictsWith lid pos pid a)
        [({ lineupId := lid, position := pos, playerId := pid } : AssignRow)] = [] := by
      simp [conflictsWith_self]
    simp [h1]
  · intro x _
    simp [Bool.and_self]

/-! ## Lemmas about getLineup and position dictionaries -/

theorem mkLineup_absent (lid : Int) : mkLineup lid (fun _ => none) = emptyLineup lid := rfl

theorem posOf_mkLineup (lid : Int) (f : String → Option String) (pos : String)
    (hpos : pos ∈ knownPositions) : posOf (mkLineup lid f) pos = f pos := by
  simp only [knownPositions, List.mem_cons, List.not_mem_nil, or_false] at hpos
  rcases hpos with h | h | h | h | h | h | h | h | h <;> subst h <;> rfl

theorem applyAssign_at_ne (f : String → Option String) (a : AssignRow) (pos : String)
    (h : a.position ≠ pos) : applyAssign f a pos = f pos := by
  unfold applyAssign
  split_ifs with hk
  · cases a.playerId with
    | none => rfl
    | some p =>
      simp only []
      rw [if_neg]
      simp only [beq_iff_eq]
      exact fun hc => h hc.symm
  · rfl

theorem applyAssign_null (f : String → Option String) (a : AssignRow)
    (h : a.playerId = none) : applyAssign f a = f := by
  unfold applyAssign
  rw [h]
  split_ifs <;> rfl

theorem foldl_applyAssign_at (pos : String) :
    ∀ (rows : List AssignRow) (f : String → Option String),
      (∀ a ∈ rows, a.position = pos → a.playerId = none) →
      (rows.foldl applyAssign f) pos = f pos := by
  intro rows
  induction rows with
  | nil => intro f _; rfl
  | cons r rs ih =>
    intro f h
    simp only [List.foldl_cons]
    rw [ih _ (fun a ha => h a (List.mem_cons_of_mem r ha))]
    by_cases hr : r.position = pos
    · rw [applyAssign_null f r (h r (List.mem_cons_self r rs) hr)]
    · exact applyAssign_at_ne f r pos hr


/-! ## Further upsert and getLineup lemmas -/

theorem upsertAssign_people (st : DBState) (lid : Int) (pos : String) (pid : Option String) :
    (upsertAssign st lid pos pid).people = st.people := rfl

theorem upsertAssign_lineups (st : DBState) (lid : Int) (pos : String) (pid : Option String) :
    (upsertAssign st lid pos pid).lineups = st.lineups := rfl

theorem find?_append_none {α} {p : α → Bool} {l1 l2 : List α} (h : l1.find? p = none) :
    (l1 ++ l2).find? p = l2.find? p := by
  rw [List.find?_append, h, Option.none_or]

theorem conflictsWith_none (lid : Int) (pos : String) (a : AssignRow) :
    conflictsWith lid pos none a = (a.lineupId == lid && a.position == pos) := by
  unfold conflictsWith
  rw [playerConflict_none, Bool.or_false]

/-- After upserting a NULL-player row at `(lid, pos)`, the joined
lineup read shows `pos` as absent: the NULL row is skipped by the
read and every surviving row sits at a different position. -/
theorem getLineup_upsert_null (st : DBState) (lid : Int) (pos : String)
    (hpos : pos ∈ knownPositions) :
    posOf (getLineup (upsertAssign st lid pos none) lid) pos = none := by
  unfold getLineup
  rw [upsertAssign_lineups]
  by_cases hc : st.lineups.contains lid
  · rw [if_pos hc]
    rw [posOf_mkLineup _ _ _ hpos]
    unfold upsertAssign
    simp only [List.filter_append]
    rw [List.foldl_append]
    have hrow : List.filter (fun a => a.lineupId == lid)
        [({ lineupId := lid, position := pos, playerId := none } : AssignRow)] =
        [({ lineupId := lid, position := pos, playerId := none } : AssignRow)] := by
      simp
    rw [hrow]
    simp only [List.foldl_cons, List.foldl_nil]
    rw [applyAssign_null _ _ rfl]
    apply foldl_applyAssign_at
    intro a ha hapos
    exfalso
    rw [List.filter_filter] at ha
    have := (List.mem_filter.mp ha).2
    rw [conflictsWith_none] at this
    simp only [Bool.and_eq_true, Bool.not_eq_eq_eq_not, Bool.not_true, beq_iff_eq] at this
    rcases this with ⟨hl, hb⟩
    rw [Bool.and_eq_false_iff] at hb
    rcases hb with hb | hb
    · rw [beq_eq_false_iff_ne] at hb; exact hb hl
    · rw [beq_eq_false_iff_ne] at hb; exact hb hapos
  · rw [if_neg hc]
    rw [posOf_mkLineup _ _ _ hpos]
    rfl


/-! ## Claim C1 -/

/-- Counterexample to C1: in `dbPitcher1` player 1 is assigned at
pitcher; the query `"z"` matches no player, yet the update call
replaces the stored row with a NULL-player row and the position reads
back absent afterwards. -/
theorem nonmatch_overwrites_assignment_cex :
    resolvePlayer dbPitcher1.people "z" (parseQuery "z").1 (parseQuery "z").2 = none ∧
    dbPitcher1.assigns = [⟨1, "pitcher", some "1"⟩] ∧
    (getLineup dbPitcher1 1).pitcher = some "1" ∧
    (updateLineup dbPitcher1 1 (singleAssign "pitcher" "z")).2.assigns =
      [⟨1, "pitcher", none⟩] ∧
    (updateLineup dbPitcher1 1 (singleAssign "pitcher" "z")).1.pitcher = none := by
  refine ⟨?_, ?_, ?_, ?_, ?_⟩ <;> decide

/-- C1 amended: when no stored player matches either form of the query
string, the update is a clearing write, not a no-op — it replaces
whatever row was stored at `(lineupId, position)` with a NULL-player
row, and the position subsequently reads back as absent. -/
theorem nonmatch_writes_null_assignment (st : DBState) (lid : Int) (pos query : String)
    (hpos : pos ∈ knownPositions)
    (hres : resolvePlayer st.people query (parseQuery query).1 (parseQuery query).2 = none) :
    (updateLineup st lid (singleAssign pos query)).2.assigns =
      st.assigns.filter (fun a => !(a.lineupId == lid && a.position == pos)) ++
        [⟨lid, pos, none⟩] ∧
    posOf ((updateLineup st lid (singleAssign pos query)).1) pos = none := by
  have hs := updateLineup_single st lid pos query hpos
  constructor
  · rw [hs, hres]
    unfold upsertAssign
    simp only []
    congr 1
    apply List.filter_congr
    intro a _
    rw [conflictsWith_none]
  · rw [updateLineup_fst, hs, hres]
    exact getLineup_upsert_null st lid pos hpos

/-- Witness for the amended C1 at a concrete input. -/
theorem nonmatch_writes_null_assignment_witness :
    (updateLineup dbPitcher1 1 (singleAssign "pitcher" "z")).2.assigns =
      dbPitcher1.assigns.filter (fun a => !(a.lineupId == 1 && a.position == "pitcher")) ++
        [⟨1, "pitcher", none⟩] ∧
    posOf ((updateLineup dbPitcher1 1 (singleAssign "pitcher" "z")).1) "pitcher" = none :=
  nonmatch_writes_null_assignment dbPitcher1 1 "pitcher" "z" (by decide) (by decide)

/-! ## Claim C2 -/

/-- Counterexample to C2: updating the nonexistent lineup identifier
`-1` returns the all-absent shape without error, but it does create a
stored row under identifier `-1` in `LineupAssignments`. -/
theorem update_nonexistent_writes_row_cex :
    dbTest.lineups = [] ∧
    dbTest.assigns = [] ∧
    (updateLineup dbTest (-1) (singleAssign "pitcher" "1")).1 = emptyLineup (-1) ∧
    (updateLineup dbTest (-1) (singleAssign "pitcher" "1")).2.assigns =
      [⟨-1, "pitcher", some "1"⟩] := by
  refine ⟨?_, ?_, ?_, ?_⟩ <;> decide

/-- C2 amended: updating a nonexistent lineup identifier raises no
error (the operation is total), returns the all-absent lineup shape
keyed by that identifier, and creates no row in the `Lineups` table —
but assignment rows under that identifier may be written to
`LineupAssignments` (invisible to reads while the identifier is absent
from `Lineups`). -/
theorem update_nonexistent_returns_absent (st : DBState) (lid : Int)
    (args : String → Option String) (h : lid ∉ st.lineups) :
    (updateLineup st lid args).1 = emptyLineup lid ∧
    (updateLineup st lid args).2.lineups = st.lineups ∧
    (updateLineup st lid args).2.people = st.people := by
  refine ⟨?_, updateLineup_lineups st lid args, updateLineup_people st lid args⟩
  rw [updateLineup_fst]
  unfold getLineup
  rw [updateLineup_lineups]
  rw [if_neg]
  · rfl
  · intro hc
    exact h (List.mem_of_elem_eq_true hc)

/-- Witness for the amended C2 at a concrete input. -/
theorem update_nonexistent_returns_absent_witness :
    (updateLineup dbTest (-1) (singleAssign "pitcher" "1")).1 = emptyLineup (-1) ∧
    (updateLineup dbTest (-1) (singleAssign "pitcher" "1")).2.lineups = dbTest.lineups ∧
    (updateLineup dbTest (-1) (singleAssign "pitcher" "1")).2.people = dbTest.people :=
  update_nonexistent_returns_absent dbTest (-1) (singleAssign "pitcher" "1") (by decide)

/-! ## Claim C9 -/

/-- C9: assigning the same `(position, exact player identifier)` pair
twice in succession leaves the same final stored state as assigning it
once — the second `INSERT OR REPLACE` deletes exactly the row it
re-inserts. -/
theorem assign_exact_id_idempotent (st : DBState) (lid : Int) (pos query : String)
    (P : Person) (hpos : pos ∈ knownPositions) (hP : P ∈ st.people)
    (hq : query = P.playerID) :
    (updateLineup (updateLineup st lid (singleAssign pos query)).2 lid
        (singleAssign pos query)).2 =
      (updateLineup st lid (singleAssign pos query)).2 := by
  have h1 := updateLineup_single st lid pos query hpos
  have h2 := updateLineup_single (updateLineup st lid (singleAssign pos query)).2
    lid pos query hpos
  rw [h2, h1, upsertAssign_people]
  exact upsertAssign_idem st lid pos _

/-- Witness for C9 at a concrete input. -/
theorem assign_exact_id_idempotent_witness :
    (updateLineup (updateLineup dbPitcher1 1 (singleAssign "catcher" "3")).2 1
        (singleAssign "catcher" "3")).2 =
      (updateLineup dbPitcher1 1 (singleAssign "catcher" "3")).2 :=
  assign_exact_id_idempotent dbPitcher1 1 "catcher" "3"
    ⟨"3", "Bill", "Baker", 2002, "USA"⟩ (by decide) (by decide) (by decide)


/-! ## Claim C10 -/

theorem sqlLike_percent (s : List Char) : sqlLike ['%'] s = true := by
  show anySuffix (sqlLike []) s = true
  induction s with
  | nil => rfl
  | cons c cs ih =>
    show (sqlLike [] (c :: cs) || anySuffix (sqlLike []) cs) = true
    rw [ih, Bool.or_true]

theorem likeStr_percent (s : String) : likeStr "%" s = true :=
  sqlLike_percent s.data

/-- Counterexample to C10: with a non-empty `People` table, an update
supplying the empty string for both pitcher and catcher leaves
**pitcher unassigned** after the call: both positions resolve the same
first stored player, and the later catcher write conflicts with the
pitcher row on `UNIQUE("lineupId", "playerId")`, so its
`INSERT OR REPLACE` deletes the pitcher row. -/
theorem empty_query_steals_assignment_cex :
    dbShadow.people ≠ [] ∧
    (updateLineup dbShadow 1 (pairAssign "pitcher" "" "catcher" "")).2.assigns =
      [⟨1, "catcher", some "p1"⟩] ∧
    findAssign (updateLineup dbShadow 1 (pairAssign "pitcher" "" "catcher" "")).2
      1 "pitcher" = none ∧
    (updateLineup dbShadow 1 (pairAssign "pitcher" "" "catcher" "")).1.pitcher = none ∧
    (updateLineup dbShadow 1 (pairAssign "pitcher" "" "catcher" "")).1.catcher =
      some "p1" := by
  refine ⟨?_, ?_, ?_, ?_, ?_⟩ <;> decide

/-- C10 amended: an empty query string splits into one empty token,
producing the patterns `("%", "%")` — a name predicate matching every
stored person — and in a **single-position** update over a non-empty
`People` table the position is written with the first stored person's
identifier rather than left unassigned.  In a multi-position call this
need not hold: a later supplied position that resolves the same player
vacates the row through `UNIQUE("lineupId", "playerId")`. -/
theorem empty_query_matches_all (st : DBState) (lid : Int) (pos : String)
    (P : Person) (rest : List Person)
    (hpos : pos ∈ knownPositions) (hp : st.people = P :: rest) :
    parseQuery "" = ("%", "%") ∧
    (∀ q ∈ st.people, resolveMatches "" "%" "%" q = true) ∧
    resolvePlayer st.people "" "%" "%" = some P.playerID ∧
    findAssign (updateLineup st lid (singleAssign pos "")).2 lid pos =
      some ⟨lid, pos, some P.playerID⟩ := by
  have hmatch : ∀ q : Person, resolveMatches "" "%" "%" q = true := by
    intro q
    unfold resolveMatches
    rw [likeStr_percent, likeStr_percent]
    simp
  have hres : resolvePlayer st.people "" "%" "%" = some P.playerID := by
    unfold resolvePlayer
    rw [hp]
    rw [List.find?_cons_of_pos _ (hmatch P)]
    rfl
  refine ⟨rfl, fun q _ => hmatch q, hres, ?_⟩
  have hs := updateLineup_single st lid pos "" hpos
  have hpq : parseQuery "" = ("%", "%") := rfl
  rw [hpq] at hs
  simp only [] at hs
  rw [hs, hres]
  unfold findAssign upsertAssign
  simp only []
  rw [find?_append_none]
  · rw [List.find?_cons_of_pos]
    simp
  · rw [List.find?_eq_none]
    intro a ha
    have h2 := (List.mem_filter.mp ha).2
    intro hck
    rw [Bool.not_eq_eq_eq_not, Bool.not_true] at h2
    have : conflictsWith lid pos (some P.playerID) a = true := by
      unfold conflictsWith
      rw [hck, Bool.true_or]
    rw [this] at h2
    cases h2


/-! ## Claim C3 -/

theorem find?_first_index {α} (p : α → Bool) :
    ∀ (l : List α) (a : α), l.find? p = some a →
      ∃ i : Fin l.length, l.get i = a ∧ p a = true ∧
        ∀ j : Fin l.length, j.val < i.val → p (l.get j) = false := by
  intro l
  induction l with
  | nil => intro a h; cases h
  | cons x xs ih =>
    intro a h
    by_cases hpx : p x = true
    · rw [List.find?_cons_of_pos _ hpx] at h
      injection h with h
      subst h
      exact ⟨⟨0, Nat.succ_pos _⟩, rfl, hpx, fun j hj => absurd hj (Nat.not_lt_zero _)⟩
    · rw [List.find?_cons_of_neg _ hpx] at h
      obtain ⟨i, hget, hpa, hbefore⟩ := ih a h
      refine ⟨⟨i.val + 1, Nat.succ_lt_succ i.isLt⟩, hget, hpa, ?_⟩
      intro j hj
      match j with
      | ⟨0, _⟩ => exact Bool.not_eq_true _ ▸ (Bool.eq_false_iff.mpr hpx)
      | ⟨k + 1, hk⟩ =>
        exact hbefore ⟨k, Nat.lt_of_succ_lt_succ hk⟩ (Nat.lt_of_succ_lt_succ hj)

/-- Counterexample to C3: in `peopleShadow` the query `"Bob"` is the
literal identifier of the second stored row, and also name-matches the
first row; resolution returns the first row in table order (`"p1"`),
not the literal-identifier match. -/
theorem identifier_not_preferred_cex :
    (∃ P ∈ peopleShadow, P.playerID = "Bob") ∧
    (∃ q ∈ peopleShadow, q.playerID ≠ "Bob" ∧
      resolveMatches "Bob" (parseQuery "Bob").1 (parseQuery "Bob").2 q = true) ∧
    resolvePlayer peopleShadow "Bob" (parseQuery "Bob").1 (parseQuery "Bob").2 =
      some "p1" ∧
    (updateLineup dbShadow 1 (singleAssign "pitcher" "Bob")).1.pitcher = some "p1" := by
  refine ⟨⟨⟨"Bob", "Zed", "Qux", 1991, "USA"⟩, by decide, by decide⟩,
    ⟨⟨"p1", "Bob", "Smith", 1990, "USA"⟩, by decide, by decide, by decide⟩,
    by decide, by decide⟩

/-- C3 amended: when the query string equals the identifier of some
stored player, resolution always succeeds and assigns the identifier
of the *first* row in table-storage order satisfying the combined
predicate (literal identifier *or* name form) — there is no preference
for the literal-identifier match beyond its position in the table; at
most one player is resolved (the subquery is capped to one row). -/
theorem resolve_first_table_match (people : List Person) (query : String) (P : Person)
    (hP : P ∈ people) (hid : P.playerID = query) :
    ∃ i : Fin people.length,
      resolvePlayer people query (parseQuery query).1 (parseQuery query).2 =
        some (people.get i).playerID ∧
      resolveMatches query (parseQuery query).1 (parseQuery query).2 (people.get i) = true ∧
      ∀ j : Fin people.length, j.val < i.val →
        resolveMatches query (parseQuery query).1 (parseQuery query).2 (people.get j) = false := by
  have hPmatch : resolveMatches query (parseQuery query).1 (parseQuery query).2 P = true := by
    unfold resolveMatches
    rw [hid]
    simp
  have hsome : (people.find? (resolveMatches query (parseQuery query).1 (parseQuery query).2)).isSome = true :=
    List.find?_isSome.mpr ⟨P, hP, hPmatch⟩
  obtain ⟨a, ha⟩ := Option.isSome_iff_exists.mp hsome
  obtain ⟨i, hget, hpa, hbefore⟩ := find?_first_index _ people a ha
  refine ⟨i, ?_, hget ▸ hpa, hbefore⟩
  unfold resolvePlayer
  rw [ha, hget]
  rfl

/-- Witness for the amended C3 at a concrete input. -/
theorem resolve_first_table_match_witness :
    ∃ i : Fin peopleShadow.length,
      resolvePlayer peopleShadow "Bob" (parseQuery "Bob").1 (parseQuery "Bob").2 =
        some (peopleShadow.get i).playerID ∧
      resolveMatches "Bob" (parseQuery "Bob").1 (parseQuery "Bob").2 (peopleShadow.get i) = true ∧
      ∀ j : Fin peopleShadow.length, j.val < i.val →
        resolveMatches "Bob" (parseQuery "Bob").1 (parseQuery "Bob").2 (peopleShadow.get j) = false :=
  resolve_first_table_match peopleShadow "Bob" ⟨"Bob", "Zed", "Qux", 1991, "USA"⟩
    (by decide) (by decide)


/-! ## Claim C8 -/

theorem playerConflict_of_same (lid : Int) (p : String) (a : AssignRow)
    (hl : a.lineupId = lid) (hp : a.playerId = some p) :
    playerConflict lid (some p) a = true := by
  unfold playerConflict
  rw [hp, hl]
  simp

theorem upsert_playerUnique {st : DBState} (h : PlayerUnique st)
    (lid : Int) (pos : String) (pid : Option String) :
    PlayerUnique (upsertAssign st lid pos pid) := by
  intro a ha b hb hlid p hap hbp
  unfold upsertAssign at ha hb
  simp only [List.mem_append, List.mem_singleton] at ha hb
  rcases ha with ha | ha <;> rcases hb with hb | hb
  · exact h a (List.mem_filter.mp ha).1 b (List.mem_filter.mp hb).1 hlid p hap hbp
  · exfalso
    have hsurv := (List.mem_filter.mp ha).2
    have hbrow : b.playerId = pid := by rw [hb]
    have hpid : pid = some p := by rw [← hbrow, hbp]
    have hal : a.lineupId = lid := by
      rw [hlid, hb]
    have : conflictsWith lid pos pid a = true := by
      unfold conflictsWith
      rw [hpid, playerConflict_of_same lid p a hal hap, Bool.or_true]
    rw [this] at hsurv
    cases hsurv
  · exfalso
    have hsurv := (List.mem_filter.mp hb).2
    have harow : a.playerId = pid := by rw [ha]
    have hpid : pid = some p := by rw [← harow, hap]
    have hbl : b.lineupId = lid := by
      rw [← hlid, ha]
    have : conflictsWith lid pos pid b = true := by
      unfold conflictsWith
      rw [hpid, playerConflict_of_same lid p b hbl hbp, Bool.or_true]
    rw [this] at hsurv
    cases hsurv
  · rw [ha, hb]

theorem updateStep_playerUnique (args : String → Option String) {s : DBState}
    (h : PlayerUnique s) (lid : Int) (pos : String) :
    PlayerUnique (updateStep args s lid pos) := by
  unfold updateStep
  cases args pos with
  | none => exact h
  | some query => exact upsert_playerUnique h lid pos _

theorem updateFold_playerUnique (args : String → Option String) (lid : Int) :
    ∀ (l : List String) {st : DBState}, PlayerUnique st →
      PlayerUnique (l.foldl (fun s pos => updateStep args s lid pos) st) := by
  intro l
  induction l with
  | nil => intro st h; exact h
  | cons p ps ih =>
    intro st h
    simp only [List.foldl_cons]
    exact ih (updateStep_playerUnique args h lid p)

theorem reachable_playerUnique {st : DBState} (h : Reachable st) : PlayerUnique st := by
  induction h with
  | init people batting => intro a ha; cases ha
  | create _ ih => exact ih
  | update lid args _ ih => exact updateFold_playerUnique args lid knownPositions ih

/-- C8: (1) in every store state reachable through `createLineup` and
`updateLineup`, two assignment rows of the same lineup naming the same
(non-NULL) player are one and the same row — a player occupies at most
one position per lineup; (2) after assigning a resolved player `p` to
a position of a lineup, every row of that lineup naming `p` sits at
exactly that position — the `INSERT OR REPLACE` vacated any prior
position of `p` in that lineup. -/
theorem player_at_most_one_position :
    (∀ st : DBState, Reachable st → ∀ a ∈ st.assigns, ∀ b ∈ st.assigns,
        a.lineupId = b.lineupId → ∀ p : String, a.playerId = some p → b.playerId = some p →
        a.position = b.position ∧ a = b) ∧
    (∀ (st : DBState) (lid : Int) (pos query p : String), pos ∈ knownPositions →
        resolvePlayer st.people query (parseQuery query).1 (parseQuery query).2 = some p →
        ∀ a ∈ (updateLineup st lid (singleAssign pos query)).2.assigns,
          a.lineupId = lid → a.playerId = some p → a.position = pos) := by
  constructor
  · intro st hr a ha b hb hlid p hap hbp
    have hab := reachable_playerUnique hr a ha b hb hlid p hap hbp
    exact ⟨by rw [hab], hab⟩
  · intro st lid pos query p hpos hres a ha hal hap
    rw [updateLineup_single st lid pos query hpos, hres] at ha
    unfold upsertAssign at ha
    simp only [List.mem_append, List.mem_singleton] at ha
    rcases ha with ha | ha
    · exfalso
      have hsurv := (List.mem_filter.mp ha).2
      have : conflictsWith lid pos (some p) a = true := by
        unfold conflictsWith
        rw [playerConflict_of_same lid p a hal hap, Bool.or_true]
      rw [this] at hsurv
      cases hsurv
    · rw [ha]

/-- Witness for C8 at concrete inputs: a reachable two-step state, and
the vacating of pitcher when player 1 is re-assigned to catcher. -/
theorem player_at_most_one_position_witness :
    ((⟨1, "pitcher", some "1"⟩ : AssignRow).position =
        (⟨1, "pitcher", some "1"⟩ : AssignRow).position ∧
      (⟨1, "pitcher", some "1"⟩ : AssignRow) = ⟨1, "pitcher", some "1"⟩) ∧
    (⟨1, "catcher", some "1"⟩ : AssignRow).position = "catcher" :=
  ⟨player_at_most_one_position.1
      (updateLineup (createLineup dbTest).2 1 (singleAssign "pitcher" "1")).2
      (Reachable.update 1 (singleAssign "pitcher" "1")
        (Reachable.create (Reachable.init testPeople testBatting)))
      ⟨1, "pitcher", some "1"⟩ (by decide) ⟨1, "pitcher", some "1"⟩ (by decide)
      rfl "1" rfl rfl,
    player_at_most_one_position.2 dbPitcher1 1 "catcher" "1" "1" (by decide) (by decide)
      ⟨1, "catcher", some "1"⟩ (by decide) rfl rfl⟩


/-! ## Claim C5 -/

theorem statsFor_eq_none_iff (batting : List BattingRow) (i : String) :
    statsFor batting i = none ↔ ∀ r ∈ batting, r.playerID ≠ i := by
  have hiff : statsFor batting i = none ↔
      (batting.filter fun r => r.playerID == i) = [] := by
    rcases hx : batting.filter fun r => r.playerID == i with _ | ⟨r, rs⟩
    · simp [statsFor, hx]
    · simp [statsFor, hx]
  rw [hiff, List.filter_eq_nil_iff]
  simp

theorem contains_eq_true_of_mem {k : String} {l : List String} (h : k ∈ l) :
    l.contains k = true :=
  List.elem_eq_true_of_mem h

theorem contains_eq_false_of_not_mem {k : String} {l : List String} (h : k ∉ l) :
    l.contains k = false := by
  cases hc : l.contains k
  · rfl
  · exact absurd (List.mem_of_elem_eq_true hc) h

theorem bool_eq_false_of_ne {b : Bool} (h : ¬ b = true) : b = false := by
  cases b
  · rfl
  · exact absurd rfl h

theorem jsSet_protoOverride_of_ne {α} (m : JSMap α) (k : String) (v : α)
    (h : k ≠ "__proto__") :
    (jsSet m k v).protoOverride = m.protoOverride := by
  unfold jsSet
  rw [if_neg (by simp [h])]
  split_ifs <;> rfl

theorem exists_key_map_overwrite {α} (own : List (String × α)) (k k2 : String) (v : α) :
    (∃ e ∈ own.map (fun e => if e.1 == k then (k, v) else e), e.1 = k2) ↔
      ∃ e ∈ own, e.1 = k2 := by
  constructor
  · rintro ⟨e2, he2, hk2⟩
    obtain ⟨e, he, hfe⟩ := List.mem_map.mp he2
    refine ⟨e, he, ?_⟩
    by_cases hek : (e.1 == k) = true
    · rw [if_pos hek] at hfe
      rw [← hk2, ← hfe]
      exact beq_iff_eq.mp hek
    · rw [if_neg hek] at hfe
      rw [← hk2, ← hfe]
  · rintro ⟨e, he, hk2⟩
    by_cases hek : (e.1 == k) = true
    · refine ⟨(k, v), List.mem_map.mpr ⟨e, he, by rw [if_pos hek]⟩, ?_⟩
      show k = k2
      rw [← beq_iff_eq.mp hek, hk2]
    · exact ⟨e, List.mem_map.mpr ⟨e, he, by rw [if_neg hek]⟩, hk2⟩

theorem jsSet_hasKey_iff {α} (m : JSMap α) (k : String) (v : α) (k2 : String) :
    ((∃ e ∈ (jsSet m k v).own, e.1 = k2) ↔
      (∃ e ∈ m.own, e.1 = k2) ∨ (k ≠ "__proto__" ∧ k = k2)) := by
  unfold jsSet
  by_cases hp : k = "__proto__"
  · rw [if_pos (by simp [hp])]
    constructor
    · exact Or.inl
    · rintro (h | ⟨hne, _⟩)
      · exact h
      · exact absurd hp hne
  · rw [if_neg (by simp [hp])]
    by_cases ha : (m.own.any fun e => e.1 == k) = true
    · rw [if_pos ha]
      rw [exists_key_map_overwrite]
      constructor
      · exact Or.inl
      · rintro (h | ⟨_, rfl⟩)
        · exact h
        · obtain ⟨e, he, hek⟩ := List.any_eq_true.mp ha
          exact ⟨e, he, beq_iff_eq.mp hek⟩
    · rw [if_neg ha]
      constructor
      · rintro ⟨e, he, hk2⟩
        rcases List.mem_append.mp he with he | he
        · exact Or.inl ⟨e, he, hk2⟩
        · rw [List.mem_singleton.mp he] at hk2
          exact Or.inr ⟨hp, hk2⟩
      · rintro (⟨e, he, hk2⟩ | ⟨_, rfl⟩)
        · exact ⟨e, List.mem_append_left _ he, hk2⟩
        · exact ⟨(k, v), List.mem_append_right _ (List.mem_singleton.mpr rfl), rfl⟩

theorem build_hasKey_iff {α β : Type} (f : β → String) (g : β → α) (k2 : String) :
    ∀ (l : List β) (m : JSMap α),
      ((∃ e ∈ (l.foldl (fun m b => jsSet m (f b) (g b)) m).own, e.1 = k2) ↔
        (∃ e ∈ m.own, e.1 = k2) ∨ ∃ b ∈ l, f b ≠ "__proto__" ∧ f b = k2) := by
  intro l
  induction l with
  | nil =>
    intro m
    simp
  | cons b bs ih =>
    intro m
    rw [List.foldl_cons, ih, jsSet_hasKey_iff]
    constructor
    · rintro ((h | ⟨hne, hk⟩) | ⟨b2, hb2, hbb⟩)
      · exact Or.inl h
      · exact Or.inr ⟨b, List.mem_cons_self b bs, hne, hk⟩
      · exact Or.inr ⟨b2, List.mem_cons_of_mem b hb2, hbb⟩
    · rintro (h | ⟨b2, hb2, hbb⟩)
      · exact Or.inl (Or.inl h)
      · rcases List.mem_cons.mp hb2 with rfl | hb2
        · exact Or.inl (Or.inr hbb)
        · exact Or.inr ⟨b2, hb2, hbb⟩

theorem build_proto_none {α β : Type} (f : β → String) (g : β → α) :
    ∀ (l : List β) (m : JSMap α), (∀ b ∈ l, f b ≠ "__proto__") →
      (l.foldl (fun m b => jsSet m (f b) (g b)) m).protoOverride = m.protoOverride := by
  intro l
  induction l with
  | nil => intro m _; rfl
  | cons b bs ih =>
    intro m h
    rw [List.foldl_cons, ih _ (fun x hx => h x (List.mem_cons_of_mem b hx))]
    exact jsSet_protoOverride_of_ne m _ _ (h b (List.mem_cons_self b bs))

theorem jsGet_ne_some_null {α} (hasField : String → Bool) (m : JSMap α) (k : String) :
    jsGet hasField m k ≠ some FetchSlot.null := by
  unfold jsGet
  cases m.own.find? fun e => e.1 == k with
  | some e => simp
  | none =>
    cases m.protoOverride with
    | some pv => split_ifs <;> simp
    | none => split_ifs <;> simp

theorem jsGet_eq_none_iff {α} (hasField : String → Bool) (m : JSMap α) (k : String)
    (hproto : m.protoOverride = none) (hk : protoKeys.contains k = false) :
    (jsGet hasField m k = none ↔ ¬∃ e ∈ m.own, e.1 = k) := by
  unfold jsGet
  rw [hproto]
  cases hf : m.own.find? fun e => e.1 == k with
  | some e =>
    apply iff_of_false
    · simp
    · intro hne
      refine hne ⟨e, List.mem_of_find?_eq_some hf, ?_⟩
      have h2 := List.find?_some hf
      simpa using h2
  | none =>
    rw [hk]
    simp only [Bool.false_eq_true, if_false]
    apply iff_of_true trivial
    rw [List.find?_eq_none] at hf
    rintro ⟨e, he, hek⟩
    exact hf e he (by simp [hek])

theorem scatterSlot_eq_null_iff {α} (hasField : String → Bool) (m : JSMap α) (k : String) :
    (scatterSlot hasField m k = FetchSlot.null ↔ jsGet hasField m k = none) := by
  unfold scatterSlot
  cases hg : jsGet hasField m k with
  | none => simp
  | some s =>
    apply iff_of_false
    · intro hnull
      exact jsGet_ne_some_null hasField m k (hg.trans (congrArg some hnull))
    · simp

theorem getProfiles_slot (st : DBState) (idents : List String) (i : Nat)
    (h : i < idents.length) :
    (getProfiles st idents)[i]? =
      some (scatterSlot profileHasField
        ((st.people.filter fun p => idents.contains p.playerID).foldl
          (fun m p => jsSet m p.playerID (profileOf p)) ⟨[], none⟩) idents[i]) := by
  show (idents.map (scatterSlot profileHasField
      ((st.people.filter fun p => idents.contains p.playerID).foldl
        (fun m p => jsSet m p.playerID (profileOf p)) ⟨[], none⟩)))[i]? = _
  rw [List.getElem?_map, List.getElem?_eq_getElem h]
  rfl

theorem getStats_slot (st : DBState) (idents : List String) (i : Nat)
    (h : i < idents.length) :
    (getStats st idents)[i]? =
      some (scatterSlot statsHasField
        ((statsGroups st.batting idents).foldl (fun m e => jsSet m e.1 e.2) ⟨[], none⟩)
        idents[i]) := by
  show (idents.map (scatterSlot statsHasField
      ((statsGroups st.batting idents).foldl (fun m e => jsSet m e.1 e.2) ⟨[], none⟩)))[i]? = _
  rw [List.getElem?_map, List.getElem?_eq_getElem h]
  rfl

theorem profiles_proto_none (st : DBState) (idents : List String)
    (hpp : ∀ p ∈ st.people, p.playerID ≠ "__proto__") :
    ((st.people.filter fun p => idents.contains p.playerID).foldl
      (fun m p => jsSet m p.playerID (profileOf p)) ⟨[], none⟩).protoOverride = none :=
  build_proto_none _ _ _ _ (fun p hp => hpp p (List.mem_filter.mp hp).1)

theorem profiles_hasKey_iff (st : DBState) (idents : List String) (k : String)
    (hk : k ∈ idents) (hkp : k ≠ "__proto__")
    (hpp : ∀ p ∈ st.people, p.playerID ≠ "__proto__") :
    ((∃ e ∈ ((st.people.filter fun p => idents.contains p.playerID).foldl
        (fun m p => jsSet m p.playerID (profileOf p)) ⟨[], none⟩).own, e.1 = k) ↔
      ∃ p ∈ st.people, p.playerID = k) := by
  rw [build_hasKey_iff]
  constructor
  · rintro (⟨e, he, _⟩ | ⟨p, hp, _, hpk⟩)
    · exact absurd he (List.not_mem_nil e)
    · exact ⟨p, (List.mem_filter.mp hp).1, hpk⟩
  · rintro ⟨p, hp, hpk⟩
    refine Or.inr ⟨p, List.mem_filter.mpr ⟨hp, ?_⟩, hpk ▸ hkp, hpk⟩
    rw [hpk]
    exact contains_eq_true_of_mem hk

theorem dedupFirst_aux (k : String) :
    ∀ (l : List String) (acc : List String),
      (k ∈ l.foldl (fun acc k2 => if acc.contains k2 then acc else acc ++ [k2]) acc ↔
        k ∈ acc ∨ k ∈ l) := by
  intro l
  induction l with
  | nil =>
    intro acc
    simp
  | cons k0 ks ih =>
    intro acc
    rw [List.foldl_cons]
    by_cases hc : acc.contains k0 = true
    · rw [if_pos hc, ih]
      simp only [List.mem_cons]
      constructor
      · rintro (h | h)
        · exact Or.inl h
        · exact Or.inr (Or.inr h)
      · rintro (h | rfl | h)
        · exact Or.inl h
        · exact Or.inl (List.mem_of_elem_eq_true hc)
        · exact Or.inr h
    · rw [if_neg hc, ih]
      simp only [List.mem_append, List.mem_singleton, List.mem_cons]
      tauto

theorem mem_dedupFirst_iff (k : String) (l : List String) :
    k ∈ dedupFirst l ↔ k ∈ l := by
  unfold dedupFirst
  rw [dedupFirst_aux]
  simp

theorem statsFor_isSome_of_mem {batting : List BattingRow} {k : String}
    (h : ∃ r ∈ batting, r.playerID = k) : ∃ s, statsFor batting k = some s := by
  cases hs : statsFor batting k with
  | some s => exact ⟨s, rfl⟩
  | none =>
    rw [statsFor_eq_none_iff] at hs
    obtain ⟨r, hr, hrk⟩ := h
    exact absurd hrk (hs r hr)

theorem statsGroups_hasKey_iff (batting : List BattingRow) (idents : List String)
    (k : String) (hk : k ∈ idents) :
    ((∃ e ∈ statsGroups batting idents, e.1 = k) ↔ ∃ r ∈ batting, r.playerID = k) := by
  unfold statsGroups
  constructor
  · rintro ⟨e, he, hek⟩
    obtain ⟨k2, hk2, hke⟩ := List.mem_filterMap.mp he
    cases hsf : statsFor batting k2 with
    | none =>
      rw [hsf] at hke
      cases hke
    | some s =>
      rw [hsf] at hke
      injection hke with hke
      have hk2k : k2 = k := by rw [← hek, ← hke]
      subst hk2k
      rw [mem_dedupFirst_iff] at hk2
      obtain ⟨r, hr, hrk⟩ := List.mem_map.mp hk2
      exact ⟨r, (List.mem_filter.mp hr).1, hrk⟩
  · rintro ⟨r, hr, hrk⟩
    obtain ⟨s, hs⟩ := statsFor_isSome_of_mem ⟨r, hr, hrk⟩
    refine ⟨(k, s), List.mem_filterMap.mpr ⟨k, ?_, by rw [hs]; rfl⟩, rfl⟩
    rw [mem_dedupFirst_iff]
    refine List.mem_map.mpr ⟨r, List.mem_filter.mpr ⟨hr, ?_⟩, hrk⟩
    rw [hrk]
    exact contains_eq_true_of_mem hk

theorem statsGroups_keys_ne_proto (batting : List BattingRow) (idents : List String)
    (h : ∀ r ∈ batting, r.playerID ≠ "__proto__") :
    ∀ e ∈ statsGroups batting idents, e.1 ≠ "__proto__" := by
  intro e he
  unfold statsGroups at he
  obtain ⟨k2, hk2, hke⟩ := List.mem_filterMap.mp he
  cases hsf : statsFor batting k2 with
  | none =>
    rw [hsf] at hke
    cases hke
  | some s =>
    rw [hsf] at hke
    injection hke with hke
    rw [← hke]
    show k2 ≠ "__proto__"
    rw [mem_dedupFirst_iff] at hk2
    obtain ⟨r, hr, hrk⟩ := List.mem_map.mp hk2
    rw [← hrk]
    exact h r (List.mem_filter.mp hr).1

theorem stats_proto_none (batting : List BattingRow) (idents : List String)
    (hbp : ∀ r ∈ batting, r.playerID ≠ "__proto__") :
    ((statsGroups batting idents).foldl (fun m e => jsSet m e.1 e.2)
      ⟨[], none⟩).protoOverride = none :=
  build_proto_none _ _ _ _ (statsGroups_keys_ne_proto batting idents hbp)

theorem stats_mapping_hasKey_iff (batting : List BattingRow) (idents : List String)
    (k : String) (hk : k ∈ idents)
    (hbp : ∀ r ∈ batting, r.playerID ≠ "__proto__") :
    ((∃ e ∈ ((statsGroups batting idents).foldl (fun m e => jsSet m e.1 e.2)
        ⟨[], none⟩).own, e.1 = k) ↔ ∃ r ∈ batting, r.playerID = k) := by
  rw [build_hasKey_iff]
  constructor
  · rintro (⟨e, he, _⟩ | ⟨grp, hgrp, _, hgk⟩)
    · exact absurd he (List.not_mem_nil e)
    · exact (statsGroups_hasKey_iff batting idents k hk).mp ⟨grp, hgrp, hgk⟩
  · intro hr
    obtain ⟨grp, hgrp, hgk⟩ := (statsGroups_hasKey_iff batting idents k hk).mpr hr
    exact Or.inr ⟨grp, hgrp, statsGroups_keys_ne_proto batting idents hbp grp hgrp, hgk⟩

/-- Counterexample to C5: the scatter consults the JS prototype chain,
so with a completely empty store the identifier `"constructor"` does
not come back as the absent marker — the inherited `Object.prototype`
member is returned instead, in both `getProfiles` and `getStats`. -/
theorem prototype_key_not_absent_cex :
    dbEmpty.people = [] ∧
    dbEmpty.batting = [] ∧
    getProfiles dbEmpty ["constructor"] = [FetchSlot.protoMember "constructor"] ∧
    getStats dbEmpty ["constructor"] = [FetchSlot.protoMember "constructor"] ∧
    (FetchSlot.protoMember "constructor" : FetchSlot PlayerProfile) ≠ FetchSlot.null ∧
    (FetchSlot.protoMember "constructor" : FetchSlot PlayerStats) ≠ FetchSlot.null := by
  refine ⟨rfl, rfl, ?_, ?_, ?_, ?_⟩ <;> decide

/-- C5 amended: `fetchProfiles`/`fetchStats` return a sequence of the
input's length, positionally aligned, and duplicate input identifiers
each receive their own aligned copy of the same value; for identifiers
that are not `Object.prototype` property names — and provided no
stored row carries the identifier `"__proto__"` (which would re-point
the scatter object's prototype) — slot `i` is the absent marker
exactly when identifier `i` has no matching stored data.  Prototype-key
identifiers with no stored row receive an inherited non-null value
instead of the absent marker. -/
theorem fetch_alignment (st : DBState) (idents : List String) :
    (getProfiles st idents).length = idents.length ∧
    (getStats st idents).length = idents.length ∧
    (∀ i, (h : i < idents.length) → idents[i] ∉ protoKeys →
      (∀ p ∈ st.people, p.playerID ≠ "__proto__") →
      ((getProfiles st idents)[i]? = some FetchSlot.null ↔
        ∀ p ∈ st.people, p.playerID ≠ idents[i])) ∧
    (∀ i, (h : i < idents.length) → idents[i] ∉ protoKeys →
      (∀ r ∈ st.batting, r.playerID ≠ "__proto__") →
      ((getStats st idents)[i]? = some FetchSlot.null ↔
        ∀ r ∈ st.batting, r.playerID ≠ idents[i])) ∧
    (∀ i j, (hi : i < idents.length) → (hj : j < idents.length) →
      idents[i] = idents[j] →
      (getProfiles st idents)[i]? = (getProfiles st idents)[j]? ∧
      (getStats st idents)[i]? = (getStats st idents)[j]?) := by
  refine ⟨List.length_map _ _, List.length_map _ _, ?_, ?_, ?_⟩
  · intro i h hkp hpp
    have hmem : idents[i] ∈ idents := List.getElem_mem h
    have hne : idents[i] ≠ "__proto__" := fun hx => hkp (by rw [hx]; decide)
    rw [getProfiles_slot st idents i h, Option.some_inj, scatterSlot_eq_null_iff,
      jsGet_eq_none_iff _ _ _ (profiles_proto_none st idents hpp)
        (contains_eq_false_of_not_mem hkp),
      profiles_hasKey_iff st idents idents[i] hmem hne hpp]
    constructor
    · intro hne2 p hp hpk
      exact hne2 ⟨p, hp, hpk⟩
    · rintro hall ⟨p, hp, hpk⟩
      exact hall p hp hpk
  · intro i h hkp hbp
    have hmem : idents[i] ∈ idents := List.getElem_mem h
    rw [getStats_slot st idents i h, Option.some_inj, scatterSlot_eq_null_iff,
      jsGet_eq_none_iff _ _ _ (stats_proto_none st.batting idents hbp)
        (contains_eq_false_of_not_mem hkp),
      stats_mapping_hasKey_iff st.batting idents idents[i] hmem hbp]
    constructor
    · intro hne2 r hr hrk
      exact hne2 ⟨r, hr, hrk⟩
    · rintro hall ⟨r, hr, hrk⟩
      exact hall r hr hrk
  · intro i j hi hj hij
    constructor
    · rw [getProfiles_slot st idents i hi, getProfiles_slot st idents j hj, hij]
    · rw [getStats_slot st idents i hi, getStats_slot st idents j hj, hij]

/-- Witness for the amended C5 at a concrete input (an unknown
non-prototype identifier slot and a duplicated identifier). -/
theorem fetch_alignment_witness :
    ((getProfiles dbTest ["1", "zzz", "1"])[1]? = some FetchSlot.null ↔
      ∀ p ∈ dbTest.people, p.playerID ≠ "zzz") ∧
    (getProfiles dbTest ["1", "zzz", "1"])[0]? = (getProfiles dbTest ["1", "zzz", "1"])[2]? ∧
    (getStats dbTest ["1", "zzz", "1"])[0]? = (getStats dbTest ["1", "zzz", "1"])[2]? :=
  ⟨(fetch_alignment dbTest ["1", "zzz", "1"]).2.2.1 1 (by decide) (by decide) (by decide),
   (fetch_alignment dbTest ["1", "zzz", "1"]).2.2.2.2 0 2 (by decide) (by decide) rfl⟩

/-! ## Claim C6 -/

theorem contains_singleton (i x : String) : ([i].contains x) = (x == i) := by
  by_cases hx : (x == i) = true
  · rw [hx]
    exact contains_eq_true_of_mem (by rw [beq_iff_eq.mp hx]; exact List.mem_singleton.mpr rfl)
  · rw [bool_eq_false_of_ne hx]
    exact contains_eq_false_of_not_mem
      (fun hmem => hx (by rw [List.mem_singleton.mp hmem]; exact beq_self_eq_true i))

theorem dedupFirst_stable (i : String) :
    ∀ (xs : List String) (acc : List String), (∀ x ∈ xs, x = i) → acc.contains i = true →
      xs.foldl (fun acc k => if acc.contains k then acc else acc ++ [k]) acc = acc := by
  intro xs
  induction xs with
  | nil => intro acc _ _; rfl
  | cons x xs2 ih =>
    intro acc hall hacc
    rw [List.foldl_cons]
    have hx : x = i := hall x (List.mem_cons_self x xs2)
    rw [hx, if_pos hacc]
    exact ih acc (fun y hy => hall y (List.mem_cons_of_mem x hy)) hacc

theorem dedupFirst_all_eq (i : String) (l : List String) (hne : l ≠ [])
    (hall : ∀ x ∈ l, x = i) : dedupFirst l = [i] := by
  cases l with
  | nil => exact absurd rfl hne
  | cons x xs =>
    unfold dedupFirst
    rw [List.foldl_cons]
    have hx : x = i := hall x (List.mem_cons_self x xs)
    rw [hx]
    rw [if_neg (fun hfalse => Bool.noConfusion hfalse)]
    rw [List.nil_append]
    exact dedupFirst_stable i xs [i] (fun y hy => hall y (List.mem_cons_of_mem x hy))
      (contains_eq_true_of_mem (List.mem_singleton.mpr rfl))

theorem statsGroups_singleton (batting : List BattingRow) (i : String) (s : PlayerStats)
    (h : batting.filter (fun r => r.playerID == i) ≠ [])
    (hs : statsFor batting i = some s) :
    statsGroups batting [i] = [(i, s)] := by
  unfold statsGroups
  have hfe : batting.filter (fun r => ([i] : List String).contains r.playerID) =
      batting.filter (fun r => r.playerID == i) := by
    apply List.filter_congr
    intro r _
    exact contains_singleton i r.playerID
  rw [hfe]
  have hdd : dedupFirst ((batting.filter fun r => r.playerID == i).map
      fun r => r.playerID) = [i] := by
    apply dedupFirst_all_eq
    · intro h0
      exact h (List.map_eq_nil_iff.mp h0)
    · intro x hx
      obtain ⟨r, hr, hrx⟩ := List.mem_map.mp hx
      rw [← hrx]
      exact beq_iff_eq.mp (List.mem_filter.mp hr).2
  rw [hdd]
  simp [List.filterMap_cons, hs]

theorem scatter_single_group (i : String) (s : PlayerStats) :
    scatterSlot statsHasField
      ([((i, s) : String × PlayerStats)].foldl (fun m e => jsSet m e.1 e.2) ⟨[], none⟩) i =
      FetchSlot.val s := by
  by_cases hip : i = "__proto__"
  · subst hip
    rfl
  · have hbeq : (i == "__proto__") = false := beq_eq_false_iff_ne.mpr hip
    simp only [List.foldl_cons, List.foldl_nil]
    unfold jsSet
    rw [if_neg (by simp [hbeq])]
    rw [if_neg (fun hfalse => Bool.noConfusion hfalse)]
    unfold scatterSlot jsGet
    simp only [List.nil_append]
    rw [List.find?_cons_of_pos _ (by exact beq_self_eq_true i)]

/-- C6: for a player with at least one batting record, the returned
stats are the column sums over all of that player's records, with
batting average `hits / atBats` and slugging
`(singles + 2·doubles + 3·triples + 4·homeRuns) / atBats` where
`singles = hits − doubles − triples − homeRuns` (division unguarded:
in this rational model a zero `atBats` yields Lean's `x / 0 = 0` in
place of the source's non-finite float). -/
theorem stats_are_sums (st : DBState) (i : String)
    (h : st.batting.filter (fun r => r.playerID == i) ≠ []) :
    ∃ s : PlayerStats,
      getStats st [i] = [FetchSlot.val s] ∧
      statsFor st.batting i = some s ∧
      s.atBats = (((st.batting.filter fun r => r.playerID == i).map fun r => r.AB).sum) ∧
      s.hits = (((st.batting.filter fun r => r.playerID == i).map fun r => r.H).sum) ∧
      s.homeRuns = (((st.batting.filter fun r => r.playerID == i).map fun r => r.HR).sum) ∧
      s.strikeouts = (((st.batting.filter fun r => r.playerID == i).map fun r => r.SO).sum) ∧
      s.battingAverage = (s.hits : ℚ) / (s.atBats : ℚ) ∧
      s.slugging =
        ((((s.hits - (((st.batting.filter fun r => r.playerID == i).map fun r => r.d2B).sum)
              - (((st.batting.filter fun r => r.playerID == i).map fun r => r.d3B).sum)
              - s.homeRuns)
            + 2 * (((st.batting.filter fun r => r.playerID == i).map fun r => r.d2B).sum)
            + 3 * (((st.batting.filter fun r => r.playerID == i).map fun r => r.d3B).sum)
            + 4 * s.homeRuns : Int) : ℚ) / (s.atBats : ℚ)) := by
  have hb : (st.batting.filter fun r => r.playerID == i).isEmpty = false := by
    rcases hx : st.batting.filter fun r => r.playerID == i with _ | ⟨r, rs⟩
    · exact absurd hx h
    · rw [hx]
      rfl
  have hsf : statsFor st.batting i =
      some
        { atBats := (((st.batting.filter fun r => r.playerID == i).map fun r => r.AB).sum)
          hits := (((st.batting.filter fun r => r.playerID == i).map fun r => r.H).sum)
          homeRuns := (((st.batting.filter fun r => r.playerID == i).map fun r => r.HR).sum)
          strikeouts := (((st.batting.filter fun r => r.playerID == i).map fun r => r.SO).sum)
          battingAverage :=
            ((((st.batting.filter fun r => r.playerID == i).map fun r => r.H).sum : Int) : ℚ) /
              ((((st.batting.filter fun r => r.playerID == i).map fun r => r.AB).sum : Int) : ℚ)
          slugging :=
            ((((((st.batting.filter fun r => r.playerID == i).map fun r => r.H).sum)
                  - (((st.batting.filter fun r => r.playerID == i).map fun r => r.d2B).sum)
                  - (((st.batting.filter fun r => r.playerID == i).map fun r => r.d3B).sum)
                  - (((st.batting.filter fun r => r.playerID == i).map fun r => r.HR).sum))
                + 2 * (((st.batting.filter fun r => r.playerID == i).map fun r => r.d2B).sum)
                + 3 * (((st.batting.filter fun r => r.playerID == i).map fun r => r.d3B).sum)
                + 4 * (((st.batting.filter fun r => r.playerID == i).map fun r => r.HR).sum) : Int) : ℚ) /
              ((((st.batting.filter fun r => r.playerID == i).map fun r => r.AB).sum : Int) : ℚ) } := by
    unfold statsFor
    simp only [hb, Bool.false_eq_true, if_false]
  refine ⟨_, ?_, hsf, rfl, rfl, rfl, rfl, rfl, rfl⟩
  show ([i] : List String).map (scatterSlot statsHasField
      ((statsGroups st.batting [i]).foldl (fun m e => jsSet m e.1 e.2) ⟨[], none⟩)) = _
  rw [statsGroups_singleton st.batting i _ h hsf, List.map_singleton, scatter_single_group]


/-- Witness for C6 at a concrete input (player "1" of the test
fixture, whose two batting rows sum to `AB = 100`, `H = 10`,
`HR = 10`, `SO = 10`). -/
theorem stats_are_sums_witness :
    ∃ s : PlayerStats,
      getStats dbTest ["1"] = [FetchSlot.val s] ∧
      statsFor dbTest.batting "1" = some s ∧
      s.atBats = (((dbTest.batting.filter fun r => r.playerID == "1").map fun r => r.AB).sum) ∧
      s.hits = (((dbTest.batting.filter fun r => r.playerID == "1").map fun r => r.H).sum) ∧
      s.homeRuns = (((dbTest.batting.filter fun r => r.playerID == "1").map fun r => r.HR).sum) ∧
      s.strikeouts = (((dbTest.batting.filter fun r => r.playerID == "1").map fun r => r.SO).sum) ∧
      s.battingAverage = (s.hits : ℚ) / (s.atBats : ℚ) ∧
      s.slugging =
        ((((s.hits - (((dbTest.batting.filter fun r => r.playerID == "1").map fun r => r.d2B).sum)
              - (((dbTest.batting.filter fun r => r.playerID == "1").map fun r => r.d3B).sum)
              - s.homeRuns)
            + 2 * (((dbTest.batting.filter fun r => r.playerID == "1").map fun r => r.d2B).sum)
            + 3 * (((dbTest.batting.filter fun r => r.playerID == "1").map fun r => r.d3B).sum)
            + 4 * s.homeRuns : Int) : ℚ) / (s.atBats : ℚ)) :=
  stats_are_sums dbTest "1" (by decide)


/-! ## Claim C4: order lemmas -/

theorem lexLt_cons (a b : Char) (as bs : List Char) :
    lexLt (a :: as) (b :: bs) =
      if a.toNat < b.toNat then true
      else if b.toNat < a.toNat then false
      else lexLt as bs := rfl

theorem lexLt_nil_right (l : List Char) : lexLt l [] = false := by
  cases l <;> rfl

theorem char_eq_of_toNat_eq {a b : Char} (h : a.toNat = b.toNat) : a = b := by
  apply Char.ext
  apply UInt32.ext
  exact h

theorem lexLt_trans : ∀ {a b c : List Char},
    lexLt a b = true → lexLt b c = true → lexLt a c = true := by
  intro a
  induction a with
  | nil =>
    intro b c _ hbc
    cases c with
    | nil => rw [lexLt_nil_right] at hbc; cases hbc
    | cons z zs => rfl
  | cons x xs ih =>
    intro b c hab hbc
    cases b with
    | nil => rw [lexLt_nil_right] at hab; cases hab
    | cons y ys =>
      cases c with
      | nil => rw [lexLt_nil_right] at hbc; cases hbc
      | cons z zs =>
        rw [lexLt_cons] at hab hbc ⊢
        split_ifs at hab hbc ⊢ <;>
          first
          | rfl
          | omega
          | (exact ih hab hbc)
          | (cases hab)
          | (cases hbc)

theorem lexLt_connex : ∀ {a b : List Char},
    lexLt a b = false → lexLt b a = false → a = b := by
  intro a
  induction a with
  | nil =>
    intro b hab _
    cases b with
    | nil => rfl
    | cons y ys => cases hab
  | cons x xs ih =>
    intro b hab hba
    cases b with
    | nil => cases hba
    | cons y ys =>
      rw [lexLt_cons] at hab hba
      split_ifs at hab hba with h1 h2
      · have hxy : x = y := char_eq_of_toNat_eq (by omega)
        rw [hxy, ih hab hba]
      all_goals first | cases hab | cases hba

theorem strLt_trans {s t u : String} (h1 : strLt s t = true) (h2 : strLt t u = true) :
    strLt s u = true := lexLt_trans h1 h2

theorem strLt_connex {s t : String} (h1 : strLt s t = false) (h2 : strLt t s = false) :
    s = t := String.ext (lexLt_connex h1 h2)

theorem nameLe_total (p q : Person) : nameLe p q = true ∨ nameLe q p = true := by
  unfold nameLe
  rcases h1 : strLt p.nameFirst q.nameFirst with _ | _
  · rcases h2 : strLt q.nameFirst p.nameFirst with _ | _
    · have hf : p.nameFirst = q.nameFirst := strLt_connex h1 h2
      rcases h3 : strLt p.nameLast q.nameLast with _ | _
      · rcases h4 : strLt q.nameLast p.nameLast with _ | _
        · have hl : p.nameLast = q.nameLast := strLt_connex h3 h4
          left
          rw [hf, hl]
          simp
        · right
          rw [hf]
          simp
      · left
        rw [hf]
        simp
    · right
      simp
  · left
    simp

theorem nameLe_trans (p q r : Person) (h1 : nameLe p q = true) (h2 : nameLe q r = true) :
    nameLe p r = true := by
  unfold nameLe at h1 h2 ⊢
  simp only [Bool.or_eq_true, Bool.and_eq_true, beq_iff_eq] at h1 h2 ⊢
  rcases h1 with h1 | ⟨h1f, h1l⟩
  · rcases h2 with h2 | ⟨h2f, h2l⟩
    · exact Or.inl (strLt_trans h1 h2)
    · rw [← h2f]
      exact Or.inl h1
  · rcases h2 with h2 | ⟨h2f, h2l⟩
    · rw [h1f]
      exact Or.inl h2
    · refine Or.inr ⟨h1f.trans h2f, ?_⟩
      rcases h1l with h1l | h1l
      · rcases h2l with h2l | h2l
        · exact Or.inl (strLt_trans h1l h2l)
        · rw [← h2l]
          exact Or.inl h1l
      · rw [h1l]
        exact h2l

/-! ## Claim C4: insertion-sort lemmas -/

theorem insertBy_mem {le : α → α → Bool} {x a : α} :
    ∀ {l : List α}, a ∈ insertBy le x l → a = x ∨ a ∈ l := by
  intro l
  induction l with
  | nil =>
    intro h
    rcases List.mem_singleton.mp h with h
    exact Or.inl h
  | cons y ys ih =>
    intro h
    unfold insertBy at h
    split_ifs at h
    · rcases List.mem_cons.mp h with h | h
      · exact Or.inl h
      · exact Or.inr h
    · rcases List.mem_cons.mp h with h | h
      · exact Or.inr (h ▸ List.mem_cons_self y ys)
      · rcases ih h with h | h
        · exact Or.inl h
        · exact Or.inr (List.mem_cons_of_mem y h)

theorem insertBy_pairwise {le : α → α → Bool}
    (htrans : ∀ a b c, le a b = true → le b c = true → le a c = true)
    (htotal : ∀ a b, le a b = true ∨ le b a = true) (x : α) :
    ∀ {l : List α}, l.Pairwise (fun a b => le a b = true) →
      (insertBy le x l).Pairwise (fun a b => le a b = true) := by
  intro l
  induction l with
  | nil =>
    intro _
    exact List.pairwise_singleton _ x
  | cons y ys ih =>
    intro hp
    rw [List.pairwise_cons] at hp
    obtain ⟨hy, hys⟩ := hp
    unfold insertBy
    by_cases hxy : le x y = true
    · rw [if_pos hxy]
      rw [List.pairwise_cons]
      refine ⟨?_, List.pairwise_cons.mpr ⟨hy, hys⟩⟩
      intro a ha
      rcases List.mem_cons.mp ha with rfl | ha
      · exact hxy
      · exact htrans x y a hxy (hy a ha)
    · rw [if_neg hxy]
      rw [List.pairwise_cons]
      refine ⟨?_, ih hys⟩
      intro a ha
      rcases insertBy_mem ha with rfl | ha
      · rcases htotal a y with h | h
        · exact absurd h hxy
        · exact h
      · exact hy a ha

theorem sortBy_pairwise {le : α → α → Bool}
    (htrans : ∀ a b c, le a b = true → le b c = true → le a c = true)
    (htotal : ∀ a b, le a b = true ∨ le b a = true) :
    ∀ (l : List α), (sortBy le l).Pairwise (fun a b => le a b = true) := by
  intro l
  induction l with
  | nil => exact List.Pairwise.nil
  | cons y ys ih => exact insertBy_pairwise htrans htotal y ih

theorem insertBy_perm (le : α → α → Bool) (x : α) :
    ∀ (l : List α), (insertBy le x l).Perm (x :: l) := by
  intro l
  induction l with
  | nil => exact List.Perm.refl _
  | cons y ys ih =>
    unfold insertBy
    split_ifs
    · exact List.Perm.refl _
    · exact (ih.cons y).trans (List.Perm.swap x y ys)

theorem sortBy_perm (le : α → α → Bool) : ∀ (l : List α), (sortBy le l).Perm l := by
  intro l
  induction l with
  | nil => exact List.Perm.refl _
  | cons y ys ih => exact (insertBy_perm le y (sortBy le ys)).trans (ih.cons y)


/-! ## Claim C4: LIKE-pattern equivalence -/

theorem sqlLike_cons_eq (c : Char) (ps : List Char) (s : List Char) :
    sqlLike (c :: ps) s =
      if c == '%' then anySuffix (sqlLike ps) s
      else
        match s with
        | [] => false
        | d :: ds => (if c == '_' then true else likeChar c d) && sqlLike ps ds := rfl

theorem sqlLike_append_percent (p : List Char) :
    ∀ s : List Char, (∀ c ∈ p, c ≠ '%' ∧ c ≠ '_') →
      sqlLike (p ++ ['%']) s = (p.map asciiLower).isPrefixOf (s.map asciiLower) := by
  induction p with
  | nil =>
    intro s _
    rw [List.nil_append, sqlLike_percent, List.map_nil]
    cases s <;> rfl
  | cons c ps ih =>
    intro s hw
    have hc := hw c (List.mem_cons_self c ps)
    rw [List.cons_append, sqlLike_cons_eq]
    rw [if_neg (by simp [hc.1])]
    cases s with
    | nil =>
      show false = (List.map asciiLower (c :: ps)).isPrefixOf (List.map asciiLower ([] : List Char))
      rw [List.map_cons, List.map_nil]
      rfl
    | cons d ds =>
      show ((if c == '_' then true else likeChar c d) && sqlLike (ps ++ ['%']) ds) =
        (List.map asciiLower (c :: ps)).isPrefixOf (List.map asciiLower (d :: ds))
      rw [if_neg (by simp [hc.2])]
      rw [ih ds (fun x hx => hw x (List.mem_cons_of_mem c hx))]
      rw [List.map_cons, List.map_cons, List.isPrefixOf_cons₂]
      rfl

theorem likeStr_prefix_ci (f s : String) (hf : noWildcard f) :
    likeStr (f ++ "%") s = startsWithCI f s := by
  unfold likeStr startsWithCI
  rw [String.data_append]
  exact sqlLike_append_percent f.data s.data hf

theorem matchedPlayers_ci (st : DBState) (f l : String)
    (hf : noWildcard f) (hl : noWildcard l) :
    matchedPlayers st f l =
      st.people.filter fun p => startsWithCI f p.nameFirst && startsWithCI l p.nameLast := by
  unfold matchedPlayers
  apply List.filter_congr
  intro p _
  rw [likeStr_prefix_ci f p.nameFirst hf, likeStr_prefix_ci l p.nameLast hl]

/-! ## Claim C4: the claim theorems -/

/-- Counterexample to C4: `findPlayers` matching is *not*
case-sensitive.  On the test fixture the case-sensitive reading of the
claim predicts no row matches the prefixes `("b", "b")`, yet the code
returns `["3", "2"]` (SQLite `LIKE` is ASCII case-insensitive by
default). -/
theorem search_case_sensitive_cex :
    dbTest.people.filter
        (fun p => startsWithCS "b" p.nameFirst && startsWithCS "b" p.nameLast) = [] ∧
    getPlayers dbTest "b" "b" = ["3", "2"] := by
  constructor <;> decide

/-- C4 amended: for wildcard-free prefixes, `getPlayers` returns
exactly the identifiers of the players whose first and last names
start with the given prefixes under ASCII **case-insensitive**
comparison (the empty prefix matches everything), ordered ascending by
(first name, last name) in code-point order; on the fixture rows,
`findPlayers("B","B") = ["3","2"]`. -/
theorem search_ci_ordered (st : DBState) (f l : String)
    (hf : noWildcard f) (hl : noWildcard l) :
    matchedPlayers st f l =
      (st.people.filter fun p => startsWithCI f p.nameFirst && startsWithCI l p.nameLast) ∧
    (sortBy nameLe (matchedPlayers st f l)).Pairwise (fun p q => nameLe p q = true) ∧
    (sortBy nameLe (matchedPlayers st f l)).Perm (matchedPlayers st f l) ∧
    getPlayers st f l = (sortBy nameLe (matchedPlayers st f l)).map (fun p => p.playerID) ∧
    getPlayers dbTest "B" "B" = ["3", "2"] := by
  refine ⟨matchedPlayers_ci st f l hf hl, ?_, sortBy_perm nameLe _, rfl, by decide⟩
  exact sortBy_pairwise (fun a b c => nameLe_trans a b c) nameLe_total _

/-- Witness for the amended C4 at a concrete input. -/
theorem search_ci_ordered_witness :
    matchedPlayers dbTest "B" "B" =
      (dbTest.people.filter fun p => startsWithCI "B" p.nameFirst && startsWithCI "B" p.nameLast) ∧
    (sortBy nameLe (matchedPlayers dbTest "B" "B")).Pairwise (fun p q => nameLe p q = true) ∧
    (sortBy nameLe (matchedPlayers dbTest "B" "B")).Perm (matchedPlayers dbTest "B" "B") ∧
    getPlayers dbTest "B" "B" =
      (sortBy nameLe (matchedPlayers dbTest "B" "B")).map (fun p => p.playerID) ∧
    getPlayers dbTest "B" "B" = ["3", "2"] :=
  search_ci_ordered dbTest "B" "B" (by unfold noWildcard; decide) (by unfold noWildcard; decide)


/-! ## Claim C7: loader lemmas -/

theorem lookupCache_append_of_isSome {α} (c d : List (String × α)) (k : String)
    (h : (lookupCache c k).isSome = true) :
    lookupCache (c ++ d) k = lookupCache c k := by
  unfold lookupCache at h ⊢
  rw [List.find?_append]
  cases hf : c.find? fun e => e.1 == k with
  | none => simp [hf] at h
  | some e => rfl

theorem pendingKeys_uncached {α} (cache : List (String × α)) :
    ∀ (keys : List String) (acc : List String),
      (∀ k ∈ acc, (lookupCache cache k).isSome = false) →
      ∀ k ∈ keys.foldl
        (fun acc k =>
          if (lookupCache cache k).isSome || acc.contains k then acc else acc ++ [k])
        acc,
      (lookupCache cache k).isSome = false := by
  intro keys
  induction keys with
  | nil => intro acc hacc k hk; exact hacc k hk
  | cons k0 ks ih =>
    intro acc hacc k hk
    simp only [List.foldl_cons] at hk
    by_cases hc : ((lookupCache cache k0).isSome || acc.contains k0) = true
    · rw [if_pos hc] at hk
      exact ih acc hacc k hk
    · rw [if_neg hc] at hk
      refine ih (acc ++ [k0]) ?_ k hk
      intro x hx
      rcases List.mem_append.mp hx with hx | hx
      · exact hacc x hx
      · rw [List.mem_singleton.mp hx]
        rw [Bool.or_eq_true] at hc
        push_neg at hc
        exact bool_eq_false_of_ne hc.1

theorem mem_pendingKeys_of_uncached {α} (cache : List (String × α)) (k : String) :
    ∀ (keys : List String) (acc : List String),
      (k ∈ acc ∨ (k ∈ keys ∧ (lookupCache cache k).isSome = false)) →
      k ∈ keys.foldl
        (fun acc k =>
          if (lookupCache cache k).isSome || acc.contains k then acc else acc ++ [k])
        acc := by
  intro keys
  induction keys with
  | nil =>
    intro acc h
    rcases h with h | ⟨h, _⟩
    · exact h
    · cases h
  | cons k0 ks ih =>
    intro acc h
    simp only [List.foldl_cons]
    by_cases hc : ((lookupCache cache k0).isSome || acc.contains k0) = true
    · rw [if_pos hc]
      rcases h with h | ⟨hmem, hns⟩
      · exact ih acc (Or.inl h)
      · rcases List.mem_cons.mp hmem with rfl | hmem
        · rw [Bool.or_eq_true] at hc
          rcases hc with hc | hc
          · rw [hns] at hc; cases hc
          · exact ih acc (Or.inl (List.mem_of_elem_eq_true hc))
        · exact ih acc (Or.inr ⟨hmem, hns⟩)
    · rw [if_neg hc]
      rcases h with h | ⟨hmem, hns⟩
      · exact ih (acc ++ [k0]) (Or.inl (List.mem_append_left _ h))
      · rcases List.mem_cons.mp hmem with rfl | hmem
        · exact ih (acc ++ [k]) (Or.inl (List.mem_append_right _ (List.mem_singleton.mpr rfl)))
        · exact ih (acc ++ [k0]) (Or.inr ⟨hmem, hns⟩)

theorem pendingKeys_uncached_all {α} (cache : List (String × α)) (keys : List String) :
    ∀ k ∈ pendingKeys cache keys, (lookupCache cache k).isSome = false :=
  pendingKeys_uncached cache keys [] (fun k hk => absurd hk (List.not_mem_nil k))

theorem zip_lookup_isSome {α} (cache : List (String × α)) (pending : List String)
    (vals : List α) (hlen : vals.length = pending.length) (k : String) (hk : k ∈ pending) :
    (lookupCache (cache ++ pending.zip vals) k).isSome = true := by
  unfold lookupCache
  rw [List.find?_append]
  cases hf : cache.find? fun e => e.1 == k with
  | some e => rfl
  | none =>
    rw [Option.none_or]
    have hmap : (pending.zip vals).map Prod.fst = pending :=
      List.map_fst_zip pending vals (le_of_eq hlen.symm)
    have : k ∈ (pending.zip vals).map Prod.fst := by rw [hmap]; exact hk
    obtain ⟨e, he, hek⟩ := List.mem_map.mp this
    have : ((pending.zip vals).find? fun e => e.1 == k).isSome = true :=
      List.find?_isSome.mpr ⟨e, he, by simp [hek]⟩
    cases hg : (pending.zip vals).find? fun e => e.1 == k with
    | none => rw [hg] at this; cases this
    | some e2 => rfl

/-- A batch fetch that returns one aligned slot per requested key. -/
def FetchAligned {α} (fetch : List String → List α) : Prop :=
  ∀ ks : List String, (fetch ks).length = ks.length

theorem dispatchTick_cached {α} (fetch : List String → List α)
    (hlen : FetchAligned fetch) (st : LoaderState α) (keys : List String) (k : String)
    (hk : k ∈ keys) :
    (lookupCache (dispatchTick fetch st keys).2.1.cache k).isSome = true := by
  unfold dispatchTick
  simp only []
  by_cases hs : (lookupCache st.cache k).isSome = true
  · split_ifs with he
    · exact hs
    · rw [lookupCache_append_of_isSome _ _ _ hs]
      exact hs
  · have hp : k ∈ pendingKeys st.cache keys :=
      mem_pendingKeys_of_uncached st.cache k keys []
        (Or.inr ⟨hk, bool_eq_false_of_ne hs⟩)
    have hne : pendingKeys st.cache keys ≠ [] := by
      intro h0
      rw [h0] at hp
      exact List.not_mem_nil k hp
    rw [if_neg (by simpa [List.isEmpty_iff] using hne)]
    exact zip_lookup_isSome st.cache _ _ (hlen _) k hp

theorem dispatchTick_mono {α} (fetch : List String → List α) (st : LoaderState α)
    (keys : List String) (k : String) (hs : (lookupCache st.cache k).isSome = true) :
    lookupCache (dispatchTick fetch st keys).2.1.cache k = lookupCache st.cache k := by
  unfold dispatchTick
  simp only []
  split_ifs with he
  · rfl
  · exact lookupCache_append_of_isSome _ _ _ hs

theorem runTicks_cache_mono {α} (fetch : List String → List α) :
    ∀ (ticks : List (List String)) (st : LoaderState α) (k : String),
      (lookupCache st.cache k).isSome = true →
      lookupCache (runTicks fetch ticks st).final.cache k = lookupCache st.cache k := by
  intro ticks
  induction ticks with
  | nil => intro st k _; rfl
  | cons keys rest ih =>
    intro st k hs
    show lookupCache (runTicks fetch rest (dispatchTick fetch st keys).2.1).final.cache k = _
    rw [ih _ k (by rw [dispatchTick_mono fetch st keys k hs]; exact hs)]
    exact dispatchTick_mono fetch st keys k hs

theorem runTicks_no_refetch {α} (fetch : List String → List α) (k : String) :
    ∀ (ticks : List (List String)) (st : LoaderState α),
      (lookupCache st.cache k).isSome = true →
      ∀ l ∈ (runTicks fetch ticks st).log, k ∉ l := by
  intro ticks
  induction ticks with
  | nil => intro st _ l hl; cases hl
  | cons keys rest ih =>
    intro st hs l hl
    rcases List.mem_append.mp hl with hl | hl
    · intro hkl
      by_cases he : (pendingKeys st.cache keys).isEmpty = true
      · simp only [dispatchTick, he, if_true] at hl
        cases hl
      · simp only [dispatchTick, he, if_false] at hl
        rcases List.mem_singleton.mp hl with rfl
        have := pendingKeys_uncached_all st.cache keys k hkl
        rw [hs] at this
        cases this
    · exact ih (dispatchTick fetch st keys).2.1
        (by rw [dispatchTick_mono fetch st keys k hs]; exact hs) l hl

theorem runTicks_fetch_once {α} (fetch : List String → List α)
    (hlen : FetchAligned fetch) (k : String) :
    ∀ (ticks : List (List String)) (st : LoaderState α),
      ((runTicks fetch ticks st).log.filter fun l => l.contains k).length ≤ 1 := by
  intro ticks
  induction ticks with
  | nil => intro st; exact Nat.zero_le 1
  | cons keys rest ih =>
    intro st
    show ((((dispatchTick fetch st keys).2.2 ++
        (runTicks fetch rest (dispatchTick fetch st keys).2.1).log).filter
          fun l => l.contains k).length ≤ 1)
    rw [List.filter_append, List.length_append]
    by_cases hk : k ∈ pendingKeys st.cache keys
    · have hcached : (lookupCache (dispatchTick fetch st keys).2.1.cache k).isSome = true := by
        unfold dispatchTick
        simp only []
        have hne : pendingKeys st.cache keys ≠ [] := by
          intro h0; rw [h0] at hk; exact List.not_mem_nil k hk
        rw [if_neg (by simpa [List.isEmpty_iff] using hne)]
        exact zip_lookup_isSome st.cache _ _ (hlen _) k hk
      have hrec : ((runTicks fetch rest (dispatchTick fetch st keys).2.1).log.filter
          fun l => l.contains k) = [] := by
        rw [List.filter_eq_nil_iff]
        intro l hl hcont
        exact runTicks_no_refetch fetch k rest _ hcached l hl
          (List.mem_of_elem_eq_true hcont)
      rw [hrec]
      have hfst : ((dispatchTick fetch st keys).2.2.filter fun l => l.contains k).length ≤ 1 := by
        have hne : pendingKeys st.cache keys ≠ [] := by
          intro h0; rw [h0] at hk; exact List.not_mem_nil k hk
        unfold dispatchTick
        simp only []
        rw [if_neg (by simpa [List.isEmpty_iff] using hne)]
        cases hfil : [pendingKeys st.cache keys].filter fun l => l.contains k with
        | nil => simp [hfil]
        | cons x xs =>
          have : xs = [] := by
            have hlen2 := congrArg List.length hfil
            have := List.length_filter_le (fun l => l.contains k) [pendingKeys st.cache keys]
            rw [hfil] at this
            simp at this
            simpa using this
          rw [this]
          simp
      simpa using hfst
    · have hfst : ((dispatchTick fetch st keys).2.2.filter fun l => l.contains k) = [] := by
        rw [List.filter_eq_nil_iff]
        intro l hl hcont
        unfold dispatchTick at hl
        simp only [] at hl
        split_ifs at hl with he
        · cases hl
        · rcases List.mem_singleton.mp hl with rfl
          exact hk (List.mem_of_elem_eq_true hcont)
      rw [hfst]
      simpa using ih (dispatchTick fetch st keys).2.1

theorem runTicks_results_final {α} (fetch : List String → List α)
    (hlen : FetchAligned fetch) :
    ∀ (ticks : List (List String)) (st : LoaderState α),
      ∀ kv ∈ (runTicks fetch ticks st).results,
        kv.2.isSome = true ∧
        lookupCache (runTicks fetch ticks st).final.cache kv.1 = kv.2 := by
  intro ticks
  induction ticks with
  | nil => intro st kv hkv; cases hkv
  | cons keys rest ih =>
    intro st kv hkv
    rcases List.mem_append.mp hkv with hkv | hkv
    · obtain ⟨k, hk, hkv2⟩ := List.mem_map.mp hkv
      have hsome : (lookupCache (dispatchTick fetch st keys).2.1.cache k).isSome = true :=
        dispatchTick_cached fetch hlen st keys k hk
      constructor
      · rw [← hkv2]
        exact hsome
      · have hfin : lookupCache
            (runTicks fetch rest (dispatchTick fetch st keys).2.1).final.cache k =
            lookupCache (dispatchTick fetch st keys).2.1.cache k :=
          runTicks_cache_mono fetch rest _ k hsome
        rw [← hkv2]
        exact hfin
    · exact ih (dispatchTick fetch st keys).2.1 kv hkv

theorem replicate_foldl_stable {α} (cache : List (String × α)) (k : String) :
    ∀ (m : Nat) (acc : List String), acc.contains k = true →
      (List.replicate m k).foldl
        (fun acc k2 =>
          if (lookupCache cache k2).isSome || acc.contains k2 then acc else acc ++ [k2])
        acc = acc := by
  intro m
  induction m with
  | zero => intro acc _; rfl
  | succ m2 ih =>
    intro acc hacc
    rw [List.replicate_succ, List.foldl_cons]
    rw [if_pos (by rw [hacc, Bool.or_true])]
    exact ih acc hacc

theorem pendingKeys_replicate {α} (n : Nat) (k : String) (hn : 1 ≤ n) :
    pendingKeys ([] : List (String × α)) (List.replicate n k) = [k] := by
  obtain ⟨m, rfl⟩ : ∃ m, n = m + 1 := ⟨n - 1, by omega⟩
  unfold pendingKeys
  rw [List.replicate_succ, List.foldl_cons]
  have h0 : lookupCache ([] : List (String × α)) k = none := rfl
  rw [if_neg (by simp [h0])]
  rw [List.nil_append]
  exact replicate_foldl_stable [] k m [k] (by simp)

theorem runTicks_replicate_log {α} (fetch : List String → List α) (n : Nat) (k : String)
    (hn : 1 ≤ n) :
    (runTicks fetch [List.replicate n k] ⟨[]⟩).log = [[k]] := by
  show ((dispatchTick fetch ⟨[]⟩ (List.replicate n k)).2.2 ++
      (runTicks fetch [] (dispatchTick fetch ⟨[]⟩ (List.replicate n k)).2.1).log) = [[k]]
  unfold dispatchTick
  simp only [pendingKeys_replicate n k hn]
  rfl

theorem batchProfiles_aligned (db : DBState) : FetchAligned (batchProfiles db) :=
  fun ks => List.length_map ks _

theorem batchStats_aligned (db : DBState) : FetchAligned (batchStats db) :=
  fun ks => List.length_map ks _


/-! ## Claim C7: the claim theorem -/

/-- C7 (spec-modelled loader): per logical operation and per loader,
the batched fetch is invoked at most once for each distinct key; `N ≥ 2`
same-key loads issued in one tick trigger exactly one batch-fetch
invocation per loader (carrying the single distinct key); and all
loads of the same key within one operation return the identical cached
result. -/
theorem loader_fetch_at_most_once :
    (∀ (db : DBState) (ticks : List (List String)) (k : String),
      ((runTicks (batchProfiles db) ticks ⟨[]⟩).log.filter fun l => l.contains k).length ≤ 1 ∧
      ((runTicks (batchStats db) ticks ⟨[]⟩).log.filter fun l => l.contains k).length ≤ 1) ∧
    (∀ (db : DBState) (n : Nat) (k : String), 2 ≤ n →
      (runTicks (batchProfiles db) [List.replicate n k] ⟨[]⟩).log = [[k]] ∧
      (runTicks (batchStats db) [List.replicate n k] ⟨[]⟩).log = [[k]]) ∧
    (∀ (db : DBState) (ticks : List (List String))
        (kv1 kv2 : String × Option (FetchSlot PlayerProfile)),
      kv1 ∈ (runTicks (batchProfiles db) ticks ⟨[]⟩).results →
      kv2 ∈ (runTicks (batchProfiles db) ticks ⟨[]⟩).results →
      kv1.1 = kv2.1 → kv1.2 = kv2.2) ∧
    (∀ (db : DBState) (ticks : List (List String))
        (kv1 kv2 : String × Option (FetchSlot PlayerStats)),
      kv1 ∈ (runTicks (batchStats db) ticks ⟨[]⟩).results →
      kv2 ∈ (runTicks (batchStats db) ticks ⟨[]⟩).results →
      kv1.1 = kv2.1 → kv1.2 = kv2.2) := by
  refine ⟨?_, ?_, ?_, ?_⟩
  · intro db ticks k
    exact ⟨runTicks_fetch_once (batchProfiles db) (batchProfiles_aligned db) k ticks _,
      runTicks_fetch_once (batchStats db) (batchStats_aligned db) k ticks _⟩
  · intro db n k hn
    exact ⟨runTicks_replicate_log (batchProfiles db) n k (le_trans one_le_two hn),
      runTicks_replicate_log (batchStats db) n k (le_trans one_le_two hn)⟩
  · intro db ticks kv1 kv2 h1 h2 hkk
    have r1 := runTicks_results_final (batchProfiles db) (batchProfiles_aligned db) ticks _ kv1 h1
    have r2 := runTicks_results_final (batchProfiles db) (batchProfiles_aligned db) ticks _ kv2 h2
    rw [← r1.2, ← r2.2, hkk]
  · intro db ticks kv1 kv2 h1 h2 hkk
    have r1 := runTicks_results_final (batchStats db) (batchStats_aligned db) ticks _ kv1 h1
    have r2 := runTicks_results_final (batchStats db) (batchStats_aligned db) ticks _ kv2 h2
    rw [← r1.2, ← r2.2, hkk]

/-- Witness for C7 at concrete inputs: two same-tick loads of `"1"`
produce exactly one batch invocation per loader, and two loads of the
unknown key `"x"` return the identical cached absent result. -/
theorem loader_fetch_at_most_once_witness :
    ((runTicks (batchProfiles dbTest) [List.replicate 2 "1"] ⟨[]⟩).log = [["1"]] ∧
      (runTicks (batchStats dbTest) [List.replicate 2 "1"] ⟨[]⟩).log = [["1"]]) ∧
    (("x", some FetchSlot.null) : String × Option (FetchSlot PlayerStats)).2 =
      (("x", some FetchSlot.null) : String × Option (FetchSlot PlayerStats)).2 :=
  ⟨loader_fetch_at_most_once.2.1 dbTest 2 "1" (by decide),
    loader_fetch_at_most_once.2.2.2 dbTest [["x", "x"]] ("x", some FetchSlot.null)
      ("x", some FetchSlot.null) (by decide) (by decide) rfl⟩


/-- Witness for C10 at a concrete input: the empty query on the test
fixture assigns the first stored player (identifier "1"). -/
theorem empty_query_matches_all_witness :
    parseQuery "" = ("%", "%") ∧
    resolvePlayer dbTest.people "" "%" "%" = some "1" ∧
    findAssign (updateLineup dbTest 1 (singleAssign "pitcher" "")).2 1 "pitcher" =
      some ⟨1, "pitcher", some "1"⟩ :=
  have h := empty_query_matches_all dbTest 1 "pitcher" ⟨"1", "Andy", "Anderson", 2000, "CAN"⟩
    [⟨"2", "Bob", "Ball", 2001, "CAN"⟩, ⟨"3", "Bill", "Baker", 2002, "USA"⟩,
     ⟨"4", "Charlie", "Cho", 2003, "CAN"⟩] (by decide) rfl
  ⟨h.1, h.2.2.1, h.2.2.2⟩
